import Mathlib

/-!
# Koyeb keep-alive worker: account registry, orchestrator and status store

A shallow embedding of `src/_worker.js` (the functions `parseAccounts`, `keepAlive`,
`updateAccountStatus`, `getAccountStatus`, `saveLogs` and the read side of `handleGetLogs`).

Modelling conventions.

* JavaScript data that comes out of `JSON.parse` is a term of `Json`.  A number is kept as the
  text `String(n)` produces for it, which is all the worker ever observes of a number
  (truthiness and rendering); an overflowing literal such as `1e400` is the number `Infinity`.
  An object is an association list read by first match.  A string is a well-formed Unicode
  string; its code units are those of its UTF-16 encoding.
* Strings that hold serialised data are kept symbolic (`Text`): `Text.json v` is a JSON text on
  which `JSON.parse` returns `v`; `Text.plain s` is any other string, on which `JSON.parse`
  throws.  `JSON.stringify` writes the text of the value it is given with every non-finite
  number replaced by `null` (`Json.storable`), so reading back what was written returns the
  value in that form.
* An exception is the `error` side of `Except JsError _`; every `try`/`catch` of the source is a
  `match` on such a value.
* The outside world (the two `fetch` calls, the clock, and failures of the key-value store) is an
  explicit argument: `AccountTrace` per processed account and `SaveTrace` for the history write.
-/

namespace KoyebLive

/-! ## JavaScript values -/

/-- Values produced by `JSON.parse`. -/
inductive Json where
  | null
  | bool (b : Bool)
  | num (text : String)
  | str (s : String)
  | arr (items : List Json)
  | obj (fields : List (String × Json))
deriving Repr

namespace Json

mutual
/-- Decidable equality of JSON values. -/
def decEq : (a b : Json) → Decidable (a = b)
  | null, b => match b with
    | null => isTrue rfl
    | bool _ => isFalse nofun
    | num _ => isFalse nofun
    | str _ => isFalse nofun
    | arr _ => isFalse nofun
    | obj _ => isFalse nofun
  | bool x, b => match b with
    | bool y => if h : x = y then isTrue (congrArg bool h) else isFalse (fun e => h (bool.inj e))
    | null => isFalse nofun
    | num _ => isFalse nofun
    | str _ => isFalse nofun
    | arr _ => isFalse nofun
    | obj _ => isFalse nofun
  | num x, b => match b with
    | num y => if h : x = y then isTrue (congrArg num h) else isFalse (fun e => h (num.inj e))
    | null => isFalse nofun
    | bool _ => isFalse nofun
    | str _ => isFalse nofun
    | arr _ => isFalse nofun
    | obj _ => isFalse nofun
  | str x, b => match b with
    | str y => if h : x = y then isTrue (congrArg str h) else isFalse (fun e => h (str.inj e))
    | null => isFalse nofun
    | bool _ => isFalse nofun
    | num _ => isFalse nofun
    | arr _ => isFalse nofun
    | obj _ => isFalse nofun
  | arr xs, b => match b with
    | arr ys => match decEqItems xs ys with
      | isTrue h => isTrue (congrArg arr h)
      | isFalse h => isFalse (fun e => h (arr.inj e))
    | null => isFalse nofun
    | bool _ => isFalse nofun
    | num _ => isFalse nofun
    | str _ => isFalse nofun
    | obj _ => isFalse nofun
  | obj xs, b => match b with
    | obj ys => match decEqFields xs ys with
      | isTrue h => isTrue (congrArg obj h)
      | isFalse h => isFalse (fun e => h (obj.inj e))
    | null => isFalse nofun
    | bool _ => isFalse nofun
    | num _ => isFalse nofun
    | str _ => isFalse nofun
    | arr _ => isFalse nofun
/-- Decidable equality of arrays of JSON values. -/
def decEqItems : (xs ys : List Json) → Decidable (xs = ys)
  | [], [] => isTrue rfl
  | [], _ :: _ => isFalse nofun
  | _ :: _, [] => isFalse nofun
  | x :: xs, y :: ys => match decEq x y, decEqItems xs ys with
    | isTrue h, isTrue t => isTrue (by rw [h, t])
    | isFalse h, _ => isFalse (fun e => h (List.cons.inj e).1)
    | _, isFalse t => isFalse (fun e => t (List.cons.inj e).2)
/-- Decidable equality of the field lists of JSON objects. -/
def decEqFields : (xs ys : List (String × Json)) → Decidable (xs = ys)
  | [], [] => isTrue rfl
  | [], _ :: _ => isFalse nofun
  | _ :: _, [] => isFalse nofun
  | (k, x) :: xs, (l, y) :: ys =>
    if hk : k = l then
      match decEq x y, decEqFields xs ys with
      | isTrue h, isTrue t => isTrue (by rw [hk, h, t])
      | isFalse h, _ => isFalse (fun e => h (Prod.mk.inj (List.cons.inj e).1).2)
      | _, isFalse t => isFalse (fun e => t (List.cons.inj e).2)
    else isFalse (fun e => hk (Prod.mk.inj (List.cons.inj e).1).1)
end

instance : DecidableEq Json := decEq

/-- JavaScript truthiness (`ToBoolean`) of a JSON value: `null`, `false`, `0`, `NaN` and the
empty string are falsy, everything else (every array and object included) is truthy. -/
def truthy : Json → Bool
  | null => false
  | bool b => b
  | num t => decide (t ≠ "0" ∧ t ≠ "NaN")
  | str s => decide (s ≠ "")
  | arr _ => true
  | obj _ => true

end Json

/-- A thrown JavaScript error: its class and its `message`.  The wording of engine-made messages
is representative only. -/
structure JsError where
  kind : String
  message : String
deriving DecidableEq, Repr

deriving instance DecidableEq for Except

/-- Own property of an object, by first match. -/
def getOwn : List (String × Json) → String → Option Json
  | [], _ => none
  | (k, v) :: rest, key => if k = key then some v else getOwn rest key

/-- Own-property write (`CreateDataProperty`): replace the value where the key exists, else
append the key at the end. -/
def setOwn : List (String × Json) → String → Json → List (String × Json)
  | [], key, v => [(key, v)]
  | (k, w) :: rest, key, v => if k = key then (k, v) :: rest else (k, w) :: setOwn rest key v

namespace Json

mutual
/-- The abstract operation `ToString` on a JSON value, as used by template literals and by
computed property keys.  An array is joined with commas (`null` elements render as the empty
string); a plain object renders as `[object Object]` unless it has an own `toString` property,
which after `JSON.parse` is never callable, so that `OrdinaryToPrimitive` throws. -/
def toStr : Json → Except JsError String
  | null => .ok "null"
  | bool b => .ok (if b then "true" else "false")
  | num t => .ok t
  | str s => .ok s
  | arr xs => joinItems xs
  | obj kvs =>
    if (getOwn kvs "toString").isSome then
      .error ⟨"TypeError", "Cannot convert object to primitive value"⟩
    else .ok "[object Object]"
/-- The body of `Array.prototype.join` with the separator `,`. -/
def joinItems : List Json → Except JsError String
  | [] => .ok ""
  | x :: rest =>
    match (match x with | null => Except.ok "" | y => toStr y) with
    | .error e => .error e
    | .ok a =>
      match rest with
      | [] => .ok a
      | _ :: _ =>
        match joinItems rest with
        | .error e => .error e
        | .ok b => .ok (a ++ "," ++ b)
end

/-- Read of one of the property names the worker spells out in its source (`name`, `token`,
`appUrl`, `user`, `email`).  None of them is defined on a built-in prototype, nor is one an
index or `length`, so the read is an own-property read: `none` is `undefined`.  Reading a
property of `null` throws. -/
def field (v : Json) (key : String) : Except JsError (Option Json) :=
  match v with
  | null => .error ⟨"TypeError", "Cannot read properties of null (reading " ++ key ++ ")"⟩
  | obj kvs => .ok (getOwn kvs key)
  | _ => .ok none

end Json

/-- A value held in a variable of the worker: JSON data, `undefined`, a built-in object of
the host (a method or prototype reached through the prototype chain), named by its key, or
the one-unit string that indexing a string yields inside a character outside the Basic
Multilingual Plane: half of a surrogate pair, given by its code unit (no well-formed string
holds it). -/
inductive Val where
  | undefined
  | data (j : Json)
  | builtin (key : String)
  | surrogate (unit : Nat)
deriving DecidableEq, Repr

/-- Truthiness of a value: `undefined` is falsy, a built-in object and a one-unit string are
truthy. -/
def Val.truthy : Val → Bool
  | .undefined => false
  | .data j => j.truthy
  | .builtin _ => true
  | .surrogate _ => true

/-- The properties every plain object inherits from `Object.prototype`. -/
def objectPrototypeKeys : List String :=
  ["constructor", "__defineGetter__", "__defineSetter__", "hasOwnProperty", "__lookupGetter__",
   "__lookupSetter__", "isPrototypeOf", "propertyIsEnumerable", "toString", "valueOf",
   "__proto__", "toLocaleString"]

/-- The built-in prototypes other than `Object.prototype` that a JSON value can have. -/
inductive ProtoClass where
  | array
  | string
  | number
  | boolean
deriving DecidableEq, Repr

/-- The part of the JavaScript host the source does not fix: which names the prototypes of
arrays, strings, numbers and booleans define (the tables vary with the engine version). -/
structure Host where
  hasMember : ProtoClass → String → Bool

/-- A property found on the prototype chain, if any. -/
def inheritedProperty (host : Host) (cls : Option ProtoClass) (key : String) : Val :=
  if (match cls with | some c => host.hasMember c key | none => false) then .builtin key
  else if key ∈ objectPrototypeKeys then .builtin key
  else .undefined

/-- The number a string of decimal digits denotes, continuing from `acc`. -/
def parseDigits : List Char → Nat → Option Nat
  | [], acc => some acc
  | c :: cs, acc =>
    if 48 ≤ c.toNat ∧ c.toNat ≤ 57 then parseDigits cs (10 * acc + (c.toNat - 48)) else none

/-- The number a canonical array-index key denotes (`"0"`, `"1"`, ... below `2^32 - 1`, written
without a leading zero). -/
def arrayIndex (key : String) : Option Nat :=
  match key.toList with
  | [] => none
  | c :: cs =>
    if c = '0' ∧ cs ≠ [] then none
    else
      match parseDigits (c :: cs) 0 with
      | some n => if n < 4294967295 then some n else none
      | none => none

/-- One UTF-16 code unit of a string: a character of the Basic Multilingual Plane, or half of
the surrogate pair of any other character. -/
inductive CodeUnit where
  | char (c : Char)
  | half (unit : Nat)
deriving DecidableEq, Repr

/-- The UTF-16 code units of a string, which are what `length` counts and what an index
selects. -/
def utf16Units : List Char → List CodeUnit
  | [] => []
  | c :: cs =>
    if c.toNat < 65536 then .char c :: utf16Units cs
    else
      .half (55296 + (c.toNat - 65536) / 1024) :: .half (56320 + (c.toNat - 65536) % 1024)
        :: utf16Units cs

/-- The computed read `receiver[key]` with a string key. -/
def getProperty (host : Host) (receiver : Json) (key : String) : Except JsError Val :=
  match receiver with
  | .null => .error ⟨"TypeError", "Cannot read properties of null (reading " ++ key ++ ")"⟩
  | .obj kvs =>
    match getOwn kvs key with
    | some v => .ok (.data v)
    | none => .ok (inheritedProperty host none key)
  | .arr xs =>
    match arrayIndex key with
    | some i =>
      match xs.get? i with
      | some v => .ok (.data v)
      | none => .ok (inheritedProperty host (some .array) key)
    | none =>
      if key = "length" then .ok (.data (.num (toString xs.length)))
      else .ok (inheritedProperty host (some .array) key)
  | .str s =>
    match arrayIndex key with
    | some i =>
      match (utf16Units s.toList).get? i with
      | some (.char c) => .ok (.data (.str (String.singleton c)))
      | some (.half unit) => .ok (.surrogate unit)
      | none => .ok (inheritedProperty host (some .string) key)
    | none =>
      if key = "length" then .ok (.data (.num (toString (utf16Units s.toList).length)))
      else .ok (inheritedProperty host (some .string) key)
  | .num _ => .ok (inheritedProperty host (some .number) key)
  | .bool _ => .ok (inheritedProperty host (some .boolean) key)

/-! ## Serialised text -/

/-- A string that may hold serialised data: `json value` is a string that is JSON text for
`value` (`JSON.parse` returns `value` on it; it is never empty), and `plain s` is the string
`s` when `s` is not JSON text (a timestamp, the empty string, damaged data). -/
inductive Text where
  | json (value : Json)
  | plain (s : String)
deriving DecidableEq, Repr

/-- Truthiness of a string: only the empty string is falsy. -/
def Text.truthy : Text → Bool
  | .json _ => true
  | .plain s => decide (s ≠ "")

namespace Json

mutual
/-- The value `JSON.parse(JSON.stringify(v))`: `JSON.stringify` writes a number that is not
finite (`Infinity`, which an overflowing literal such as `1e400` parses to, `-Infinity`, `NaN`)
as `null`, at any depth, and writes everything else so that it reads back as it was. -/
def storable : Json → Json
  | null => null
  | bool b => bool b
  | num t => if t = "Infinity" ∨ t = "-Infinity" ∨ t = "NaN" then null else num t
  | str s => str s
  | arr xs => arr (storableItems xs)
  | obj kvs => obj (storableFields kvs)
/-- The elements of an array as `JSON.stringify` writes them. -/
def storableItems : List Json → List Json
  | [] => []
  | x :: rest => storable x :: storableItems rest
/-- The fields of an object as `JSON.stringify` writes them. -/
def storableFields : List (String × Json) → List (String × Json)
  | [] => []
  | (k, v) :: rest => (k, storable v) :: storableFields rest
end

end Json

namespace JSON

/-- The function `JSON.parse`. -/
def parse : Text → Except JsError Json
  | .json v => .ok v
  | .plain _ => .error ⟨"SyntaxError", "Unexpected token in JSON"⟩

/-- The function `JSON.stringify`: the text of the value with non-finite numbers written as
`null`. -/
def stringify (v : Json) : Text := .json v.storable

end JSON

/-! ## Configuration and the key-value store -/

/-- The constant `CONFIG.LOG_LIMIT`. -/
def LOG_LIMIT : Nat := 50

/-- The constant `CONFIG.ACCOUNT_STATUS_KEY`. -/
def ACCOUNT_STATUS_KEY : String := "account_status"

/-- Contents of the key-value namespace bound as `LOG_KV`. -/
structure Kv where
  entries : List (String × Text)
deriving DecidableEq, Repr

/-- The value `LOG_KV.get(key)` resolves to: `none` is `null`. -/
def Kv.get (kv : Kv) (key : String) : Option Text :=
  match kv.entries.find? (fun e => e.1 = key) with
  | some e => some e.2
  | none => none

/-- The contents after `LOG_KV.put(key, value)` resolves. -/
def Kv.put (kv : Kv) (key : String) (value : Text) : Kv :=
  ⟨(key, value) :: kv.entries.filter (fun e => e.1 ≠ key)⟩

/-- The bindings of the worker (`env`). -/
structure Env where
  KOYEB_TOKENS : Option Text
  KOYEB_TOKEN : Option String
  KOYEB_APP_URL : Option String
  KOYEB_APP_URLS : Option Text
  LOG_KV : Option Kv
deriving DecidableEq, Repr

/-- Truthiness of an optional string binding. -/
def truthyString : Option String → Bool
  | some s => decide (s ≠ "")
  | none => false

/-- Truthiness of an optional text binding or of the result of `LOG_KV.get`. -/
def truthyText : Option Text → Bool
  | some t => t.truthy
  | none => false

/-! ## Account registry -/

/-- One resolved account. -/
structure Account where
  id : String
  name : Json
  token : Option Json
  appUrl : Val
deriving DecidableEq, Repr

/-- The expression `a || b` where `a` is a property that may be `undefined`. -/
def orElse (a : Option Json) (b : Json) : Json :=
  match a with
  | some v => if v.truthy then v else b
  | none => b

/-- The callback of `tokensConfig.map` applied to the entry at position `index`. -/
def accountOfEntry (acc : Json) (index : Nat) : Except JsError Account :=
  match acc.field "name", acc.field "token", acc.field "appUrl" with
  | .ok name, .ok token, .ok appUrl =>
    .ok { id := "acc_" ++ toString (index + 1),
          name := orElse name (.str ("Account " ++ toString (index + 1))),
          token := token,
          appUrl := .data (orElse appUrl .null) }
  | .error e, _, _ => .error e
  | _, .error e, _ => .error e
  | _, _, .error e => .error e

/-- The call `tokensConfig.map(...)` on the entries from position `index` on: the first throwing
callback aborts the whole call. -/
def mapEntries : List Json → Nat → Except JsError (List Account)
  | [], _ => .ok []
  | acc :: rest, index =>
    match accountOfEntry acc index with
    | .error e => .error e
    | .ok account =>
      match mapEntries rest (index + 1) with
      | .error e => .error e
      | .ok accounts => .ok (account :: accounts)

/-- The list form: the value of `accounts` after the `KOYEB_TOKENS` block (lines 55-65). -/
def accountsFromTokens (env : Env) : Except JsError (List Account) :=
  if truthyText env.KOYEB_TOKENS then
    match env.KOYEB_TOKENS with
    | some text =>
      match JSON.parse text with
      | .error e => .error e
      | .ok (.arr tokensConfig) => mapEntries tokensConfig 0
      | .ok _ => .ok []
    | none => .ok []
  else .ok []

/-- The single legacy account (lines 68-75). -/
def legacyAccount (env : Env) : Account :=
  { id := "acc_1",
    name := .str "Default Account",
    token := (env.KOYEB_TOKEN.map Json.str),
    appUrl := .data (if truthyString env.KOYEB_APP_URL then
      (match env.KOYEB_APP_URL with | some u => .str u | none => .null) else .null) }

/-- The value of `accounts` when the name-to-URL merge starts (lines 55-75), or the exception
that takes control to the outer `catch`. -/
def configuredAccounts (env : Env) : Except JsError (List Account) :=
  match accountsFromTokens env with
  | .error e => .error e
  | .ok accounts =>
    if accounts.length = 0 ∧ truthyString env.KOYEB_TOKEN then .ok [legacyAccount env]
    else .ok accounts

/-- The body of the `forEach` callback of the merge (lines 82-84) for one account. -/
def mergeAccount (host : Host) (appUrls : Json) (account : Account) : Except JsError Account :=
  match appUrls with
  | .null => .error ⟨"TypeError", "Cannot read properties of null"⟩
  | _ =>
    match account.name.toStr with
    | .error e => .error e
    | .ok key =>
      match getProperty host appUrls key with
      | .error e => .error e
      | .ok url =>
        if url.truthy ∧ ¬ account.appUrl.truthy then .ok { account with appUrl := url }
        else .ok account

/-- The call `accounts.forEach(...)` of the merge: accounts are updated in place in list order,
and a throwing callback leaves the remaining accounts as they are. -/
def mergeAppUrls (host : Host) (appUrls : Json) : List Account → List Account
  | [] => []
  | account :: rest =>
    match mergeAccount host appUrls account with
    | .error _ => account :: rest
    | .ok merged => merged :: mergeAppUrls host appUrls rest

/-- The function `parseAccounts` (lines 50-96). -/
def parseAccounts (host : Host) (env : Env) : List Account :=
  match configuredAccounts env with
  | .error _ => []
  | .ok accounts =>
    if truthyText env.KOYEB_APP_URLS then
      match env.KOYEB_APP_URLS with
      | some text =>
        match JSON.parse text with
        | .error _ => accounts
        | .ok appUrls => mergeAppUrls host appUrls accounts
      | none => accounts
    else accounts

/-! ## Status store -/

/-- The entries of an association list with later duplicates of a key removed: the properties
the object really has. -/
def dedupKeys : List (String × Json) → List (String × Json)
  | [] => []
  | (k, v) :: rest => (k, v) :: (dedupKeys rest).filter (fun e => e.1 ≠ k)

/-- The entries `("0", x0), ("1", x1), ...` of an array-like value, numbered from `start`. -/
def indexedEntries : List Json → Nat → List (String × Json)
  | [], _ => []
  | x :: rest, start => (toString start, x) :: indexedEntries rest (start + 1)

/-- The one-unit string at a code unit, as far as `Json` can hold it: a string of `Json` is a
sequence of characters, so the string that consists of half of a surrogate pair is shown as the
replacement character U+FFFD.  Only the spread of a string with a character beyond the basic
plane meets this case. -/
def CodeUnit.toJson : CodeUnit → Json
  | .char c => .str (String.singleton c)
  | .half _ => .str "\uFFFD"

/-- The own enumerable properties a spread `...v` copies: the fields of an object, the indexed
elements of an array, the indexed code units of a string, and nothing for any other value.
(The worker only ever spreads the stored record and the status object of lines 180-183.) -/
def ownEntries : Val → List (String × Json)
  | .data (.obj kvs) => dedupKeys kvs
  | .data (.arr xs) => indexedEntries xs 0
  | .data (.str s) => indexedEntries ((utf16Units s.toList).map CodeUnit.toJson) 0
  | .surrogate unit => [("0", (CodeUnit.half unit).toJson)]
  | _ => []

/-- Copy properties into an object under construction, in order. -/
def spreadInto (target : List (String × Json)) (source : List (String × Json)) :
    List (String × Json) :=
  source.foldl (fun acc kv => setOwn acc kv.1 kv.2) target

/-- The array after the element at index `i` is assigned; the holes an assignment past the end
leaves are serialised as `null`. -/
def setItem (xs : List Json) (i : Nat) (v : Json) : List Json :=
  if i < xs.length then xs.set i v else xs ++ List.replicate (i - xs.length) Json.null ++ [v]

/-- The assignment `receiver[key] = value` of a strict-mode module, as far as
`JSON.stringify(receiver)` can tell afterwards.  On a plain object without an own `__proto__`
property the key `__proto__` reaches the inherited setter, which changes the prototype and
creates no property; a named property of an array is not serialised; assigning to a primitive
throws. -/
def assignProperty (receiver : Json) (key : String) (value : Json) : Except JsError Json :=
  match receiver with
  | .null => .error ⟨"TypeError", "Cannot set properties of null (setting " ++ key ++ ")"⟩
  | .obj kvs =>
    if (getOwn kvs key).isSome then .ok (.obj (setOwn kvs key value))
    else if key = "__proto__" then .ok (.obj kvs)
    else .ok (.obj (setOwn kvs key value))
  | .arr xs =>
    match arrayIndex key with
    | some i => .ok (.arr (setItem xs i value))
    | none =>
      if key = "length" then .error ⟨"RangeError", "Invalid array length"⟩
      else .ok (.arr xs)
  | _ => .error ⟨"TypeError", "Cannot create property " ++ key ++ " on a primitive value"⟩

/-- What the outside world does during one call of `updateAccountStatus`: whether `LOG_KV.get`
and `LOG_KV.put` reject, and the clock reading stamped as `updatedAt`. -/
structure StatusTrace where
  getFails : Bool
  putFails : Bool
  updatedAt : String
deriving DecidableEq, Repr

/-- The record `{ ...statusData[accountId], ...status, updatedAt }` (lines 210-214). -/
def mergedRecord (previous : Val) (status : Json) (updatedAt : String) : Json :=
  .obj (setOwn (spreadInto (spreadInto [] (ownEntries previous)) (ownEntries (.data status)))
    "updatedAt" (.str updatedAt))

/-- The function `updateAccountStatus` (lines 202-220), as the contents of the store after the
call.  Every exception is caught and leaves the store as it was. -/
def updateAccountStatus (host : Host) (x : StatusTrace) (store : Option Kv) (accountId : String)
    (status : Json) : Option Kv :=
  match store with
  | none => none
  | some kv =>
    if x.getFails then some kv
    else
      match (if truthyText (kv.get ACCOUNT_STATUS_KEY) then
              (match kv.get ACCOUNT_STATUS_KEY with
               | some existing => JSON.parse existing
               | none => .ok (.obj []))
             else .ok (.obj [])) with
      | .error _ => some kv
      | .ok statusData =>
        match getProperty host statusData accountId with
        | .error _ => some kv
        | .ok previous =>
          match assignProperty statusData accountId
              (mergedRecord previous status x.updatedAt) with
          | .error _ => some kv
          | .ok updated =>
            if x.putFails then some kv
            else some (kv.put ACCOUNT_STATUS_KEY (JSON.stringify updated))

/-- The function `getAccountStatus` (lines 225-235); `getFails` says whether `LOG_KV.get`
rejects. -/
def getAccountStatus (getFails : Bool) (store : Option Kv) : Json :=
  match store with
  | none => .obj []
  | some kv =>
    if getFails then .obj []
    else
      match kv.get ACCOUNT_STATUS_KEY with
      | some data =>
        if data.truthy then
          (match JSON.parse data with
           | .ok v => v
           | .error _ => .obj [])
        else .obj []
      | none => .obj []

/-- The history `handleGetLogs` serves (lines 288-296). -/
def getHistory (getFails : Bool) (store : Option Kv) : Json :=
  match store with
  | none => .arr []
  | some kv =>
    if getFails then .arr []
    else
      match kv.get "history" with
      | some data =>
        if data.truthy then
          (match JSON.parse data with
           | .ok v => v
           | .error _ => .arr [])
        else .arr []
      | none => .arr []

/-- What the outside world does during one call of `saveLogs`: whether the read and the two
writes reject, and the two clock readings. -/
structure SaveTrace where
  getFails : Bool
  putHistoryFails : Bool
  putLastRunFails : Bool
  time : String
  lastRun : String
deriving DecidableEq, Repr

/-- The object `logEntry` (lines 313-317). -/
def logEntry (time : String) (newLogs : List String) (status : Bool) : Json :=
  .obj [("time", .str time),
        ("status", .str (if status then "success" else "error")),
        ("messages", .arr (newLogs.map Json.str))]

/-- The function `saveLogs` (lines 305-330), as the contents of the store after the call.  A
stored history that is not an array has no `unshift`, so the call throws inside the `try`. -/
def saveLogs (x : SaveTrace) (store : Option Kv) (newLogs : List String) (status : Bool) :
    Option Kv :=
  match store with
  | none => none
  | some kv =>
    if x.getFails then some kv
    else
      match (if truthyText (kv.get "history") then
              (match kv.get "history" with
               | some existing => JSON.parse existing
               | none => .ok (.arr []))
             else .ok (.arr [])) with
      | .error _ => some kv
      | .ok (.arr stored) =>
        let history := logEntry x.time newLogs status :: stored
        let history := if history.length > LOG_LIMIT then history.take LOG_LIMIT else history
        if x.putHistoryFails then some kv
        else
          let written := kv.put "history" (JSON.stringify (.arr history))
          if x.putLastRunFails then some written
          else some (written.put "last_run" (.plain x.lastRun))
      | .ok _ => some kv

/-! ## Keep-alive orchestrator -/

/-- The body of a response as `response.json()` delivers it: parsed data, or a rejection. -/
inductive Body where
  | json (data : Json)
  | unreadable (message : String)
deriving DecidableEq, Repr

/-- The response `fetch` resolves to. -/
structure Response where
  status : Nat
  statusText : String
  body : Body
deriving DecidableEq, Repr

/-- The getter `response.ok`: the status is in the range 200-299. -/
def Response.ok (r : Response) : Bool := decide (200 ≤ r.status ∧ r.status ≤ 299)

/-- Outcome of the call to the account-profile endpoint. -/
inductive ApiOutcome where
  | responded (response : Response)
  | threw (message : String)
deriving DecidableEq, Repr

/-- Outcome of the optional request to the application URL. -/
inductive ProbeOutcome where
  | responded (status : Nat)
  | threw (message : String)
deriving DecidableEq, Repr

/-- What the outside world does while one account is processed: the two remote calls, the
differences of clock readings, the timestamps, and the behaviour of the store during the
account's status update. -/
structure AccountTrace where
  api : ApiOutcome
  apiDuration : Int
  probe : ProbeOutcome
  pingDuration : Int
  accountDuration : Int
  finishedAt : String
  lastRun : String
  status : StatusTrace
deriving DecidableEq, Repr

/-- What the outside world does during one run: the timestamp taken at the start, one trace per
position in the list of processed accounts, and the trace of the final history write. -/
structure World where
  timestamp : String
  account : Nat → AccountTrace
  save : SaveTrace

/-- One element of `results`. -/
structure AccountRunResult where
  id : String
  name : Json
  success : Bool
  duration : Int
  logs : List String
  timestamp : String
deriving DecidableEq, Repr

/-- The object `keepAlive` returns. -/
structure RunSummary where
  success : Bool
  logs : List String
  results : List AccountRunResult
deriving DecidableEq, Repr

/-- The text of `account.token` inside the `Authorization` header. -/
def renderToken : Option Json → Except JsError String
  | none => .ok "undefined"
  | some token => token.toStr

/-- The value of the expression `data.user?.email || 'Unknown'` (line 142). -/
def displayedEmail (data : Json) : Except JsError Json :=
  match data.field "user" with
  | .error e => .error e
  | .ok none => .ok (.str "Unknown")
  | .ok (some .null) => .ok (.str "Unknown")
  | .ok (some user) =>
    match user.field "email" with
    | .error e => .error e
    | .ok email => .ok (orElse email (.str "Unknown"))

/-- The `try` block of lines 129-147: the flag for the account and the line pushed to
`accountLogs`, or the exception that reaches the `catch`. -/
def callStatusApi (account : Account) (t : AccountTrace) : Except JsError (Bool × String) :=
  match renderToken account.token with
  | .error e => .error e
  | .ok _ =>
    match t.api with
    | .threw message => .error ⟨"Error", message⟩
    | .responded response =>
      if response.ok then
        match response.body with
        | .unreadable message => .error ⟨"SyntaxError", message⟩
        | .json data =>
          match displayedEmail data with
          | .error e => .error e
          | .ok shown =>
            match shown.toStr with
            | .error e => .error e
            | .ok text =>
              .ok (true, "✅ Koyeb API 验证成功 (" ++ toString t.apiDuration ++ "ms) - 用户: "
                ++ text)
      else
        .ok (false, "❌ Koyeb API 失败: " ++ toString response.status ++ " "
          ++ response.statusText)

/-- Lines 125-152: the value of `accountSuccess` and the contents of `accountLogs` after the
status call. -/
def checkAccount (account : Account) (t : AccountTrace) : Bool × List String :=
  match callStatusApi account t with
  | .ok (success, line) => (success, [line])
  | .error e => (false, ["❌ Koyeb API 请求异常: " ++ e.message])

/-- Lines 155-164: the line the optional application ping adds to `accountLogs`. -/
def pingApp (account : Account) (t : AccountTrace) : List String :=
  if account.appUrl.truthy then
    match t.probe with
    | .responded status =>
      ["🌐 App Ping: " ++ toString status ++ " (" ++ toString t.pingDuration ++ "ms)"]
    | .threw message => ["⚠️ App Ping 失败: " ++ message]
  else []

/-- The variables the loop of `keepAlive` updates, with the contents of the store. -/
structure LoopState where
  logs : List String
  results : List AccountRunResult
  allSuccess : Bool
  store : Option Kv
deriving DecidableEq, Repr

/-- The status object passed to `updateAccountStatus` (lines 180-183). -/
def statusOf (account : Account) (t : AccountTrace) (accountSuccess : Bool) : Json :=
  .obj [("name", account.name),
        ("lastRun", .str t.lastRun),
        ("success", .bool accountSuccess),
        ("lastDuration", .num (toString t.accountDuration))]

/-- The contents of `accountLogs` when the account has been processed (lines 126-164). -/
def accountLogsOf (account : Account) (t : AccountTrace) : List String :=
  (checkAccount account t).2 ++ pingApp account t

/-- The object `result` (lines 167-174). -/
def resultOf (account : Account) (t : AccountTrace) : AccountRunResult :=
  { id := account.id,
    name := account.name,
    success := (checkAccount account t).1,
    duration := t.accountDuration,
    logs := accountLogsOf account t,
    timestamp := t.finishedAt }

/-- One iteration of the loop (lines 123-190) for the account at `position`, whose name renders
as `nameText`. -/
def processAccount (host : Host) (w : World) (position : Nat) (account : Account)
    (nameText : String) (s : LoopState) : LoopState :=
  let t := w.account position
  let accountSuccess := (checkAccount account t).1
  { logs := s.logs
      ++ ["[" ++ w.timestamp ++ "] 🔄 处理账户: " ++ nameText ++ " (ID: " ++ account.id ++ ")"]
      ++ ["[" ++ w.timestamp ++ "] " ++ (if accountSuccess then "✅" else "❌") ++ " 账户 "
            ++ nameText ++ " 完成 (" ++ toString t.accountDuration ++ "ms)"]
      ++ (accountLogsOf account t).map (fun log => "[" ++ w.timestamp ++ "]   " ++ log),
    results := s.results ++ [resultOf account t],
    allSuccess := s.allSuccess && accountSuccess,
    store :=
      match s.store with
      | some kv =>
        updateAccountStatus host t.status (some kv) account.id (statusOf account t accountSuccess)
      | none => none }

/-- The loop `for (const account of accountsToProcess)` from position `position` on.  The
template literal of line 123 renders `account.name` outside every `try`: when that throws, the
exception leaves `keepAlive` and the loop stops in the state reached so far. -/
def processAccounts (host : Host) (w : World) :
    List Account → Nat → LoopState → Option JsError × LoopState
  | [], _, s => (none, s)
  | account :: rest, position, s =>
    match account.name.toStr with
    | .error e => (some e, s)
    | .ok nameText =>
      processAccounts host w rest (position + 1) (processAccount host w position account nameText s)

/-- Result of one call of `keepAlive`: the summary it resolves to, or the exception it rejects
with, and the contents of the store afterwards. -/
structure Run where
  outcome : Except JsError RunSummary
  store : Option Kv
deriving DecidableEq, Repr

/-- The accounts the loop visits (lines 118-120). -/
def accountsToProcess (accounts : List Account) (specificAccountId : Option String) :
    List Account :=
  match specificAccountId with
  | some id => if id ≠ "" then accounts.filter (fun acc => acc.id = id) else accounts
  | none => accounts

/-- The two lines every run starts its log with (lines 108-109). -/
def headerLines (timestamp : String) (source : String) (count : Nat) : List String :=
  ["[" ++ timestamp ++ "] 🚀 多账户保活任务开始 (来源: " ++ source ++ ")",
   "[" ++ timestamp ++ "] 📊 发现 " ++ toString count ++ " 个账户"]

/-- The line logged when no account is configured (line 112). -/
def noAccountsLine (timestamp : String) : String :=
  "[" ++ timestamp ++ "] ❌ 错误: 未配置任何 Koyeb 账户。请设置 KOYEB_TOKENS 环境变量。"

/-- The function `keepAlive` (lines 101-197). -/
def keepAlive (host : Host) (w : World) (env : Env) (source : String)
    (specificAccountId : Option String) : Run :=
  let accounts := parseAccounts host env
  let logs := headerLines w.timestamp source accounts.length
  if accounts.length = 0 then
    let logs := logs ++ [noAccountsLine w.timestamp]
    { outcome := .ok { success := false, logs := logs, results := [] },
      store := saveLogs w.save env.LOG_KV logs false }
  else
    match processAccounts host w (accountsToProcess accounts specificAccountId) 0
        { logs := logs, results := [], allSuccess := true, store := env.LOG_KV } with
    | (some e, s) => { outcome := .error e, store := s.store }
    | (none, s) =>
      { outcome := .ok { success := s.allSuccess, logs := s.logs, results := s.results },
        store := saveLogs w.save s.store s.logs s.allSuccess }

/-! ## Vocabulary of the statements -/

/-- A value renders as text: `ToString` does not throw on it.  Every string, number, boolean
and `null` renders. -/
def Json.renders (v : Json) : Bool :=
  match v.toStr with
  | .ok _ => true
  | .error _ => false

/-- The status call was answered with a 2xx status. -/
def ApiOutcome.is2xx : ApiOutcome → Bool
  | .responded response => response.ok
  | .threw _ => false

/-- The status call of an account went through: the token renders as text, the endpoint
answered with a 2xx status, the body was readable as JSON, and the e-mail shown in the log line
renders as text. -/
def StatusCallOk (account : Account) (t : AccountTrace) : Prop :=
  (∃ bearer, renderToken account.token = .ok bearer) ∧
  ∃ response data shown text, t.api = .responded response ∧ response.ok = true ∧
    response.body = .json data ∧ displayedEmail data = .ok shown ∧ shown.toStr = .ok text

/-- The elements of `results` for the accounts visited from position `position` on. -/
def runResults (w : World) : List Account → Nat → List AccountRunResult
  | [], _ => []
  | account :: rest, position =>
    resultOf account (w.account position) :: runResults w rest (position + 1)

/-- What a caller reads off a run for each account: id, name and success. -/
def AccountRunResult.view (r : AccountRunResult) : String × Json × Bool :=
  (r.id, r.name, r.success)

/-- What a caller reads off a run: the overall success and the view of each result, or the
exception. -/
def Run.view (r : Run) : Except JsError (Bool × List (String × Json × Bool)) :=
  match r.outcome with
  | .ok summary => .ok (summary.success, summary.results.map AccountRunResult.view)
  | .error e => .error e

/-- The same world with other outcomes of the application pings. -/
def World.withProbes (w : World) (probes : Nat → ProbeOutcome) (pings : Nat → Int) : World :=
  { w with account := fun i => { w.account i with probe := probes i, pingDuration := pings i } }

/-- The same world with another behaviour of the key-value store. -/
def World.withStore (w : World) (status : Nat → StatusTrace) (lastRuns : Nat → String)
    (save : SaveTrace) : World :=
  { w with
    account := fun i => { w.account i with status := status i, lastRun := lastRuns i },
    save := save }

/-- The store accepts the read and both writes of a `saveLogs` call. -/
def SaveTrace.working (x : SaveTrace) : Prop :=
  x.getFails = false ∧ x.putHistoryFails = false ∧ x.putLastRunFails = false

instance (x : SaveTrace) : Decidable x.working := by
  unfold SaveTrace.working; infer_instance

/-- The store holds the history `xs`: the key is missing or holds the empty string (then `xs`
is empty), or it holds the serialisation of the array `xs`. -/
def HoldsHistory (kv : Kv) (xs : List Json) : Prop :=
  (kv.get "history" = none ∧ xs = []) ∨ (kv.get "history" = some (.plain "") ∧ xs = []) ∨
  kv.get "history" = some (.json (.arr xs))

instance (kv : Kv) (xs : List Json) : Decidable (HoldsHistory kv xs) := by
  unfold HoldsHistory; infer_instance

/-- One call of `saveLogs`: its arguments and what the store does during it. -/
structure SaveCall where
  trace : SaveTrace
  newLogs : List String
  status : Bool
deriving DecidableEq, Repr

/-- The entry a call of `saveLogs` builds. -/
def SaveCall.entry (c : SaveCall) : Json := logEntry c.trace.time c.newLogs c.status

/-- The store after a sequence of `saveLogs` calls. -/
def runSaves (calls : List SaveCall) (store : Option Kv) : Option Kv :=
  calls.foldl (fun st c => saveLogs c.trace st c.newLogs c.status) store

/-- The value is a plain object. -/
def Json.isObject : Json → Bool
  | .obj _ => true
  | _ => false

/-- The number a list of decimal digit characters denotes, continuing from `acc`. -/
def digitsValue (cs : List Char) (acc : Nat) : Nat :=
  cs.foldl (fun n c => 10 * n + (c.toNat - 48)) acc

/-- The list form contributes no account: the setting is missing or empty, or it parses to the
empty array. -/
def ListFormEmpty (env : Env) : Prop :=
  env.KOYEB_TOKENS = none ∨ env.KOYEB_TOKENS = some (.plain "") ∨
  env.KOYEB_TOKENS = some (.json (.arr []))

instance (env : Env) : Decidable (ListFormEmpty env) := by
  unfold ListFormEmpty; infer_instance

/-- The property `k` of the object literal `{ ...v }`: what a spread of `v` contributes under
the key `k`. -/
def Val.spreadField (v : Val) (k : String) : Option Json :=
  getOwn (spreadInto [] (ownEntries v)) k

/-- The store holds the status map `m`: the key is missing or holds the empty string (then `m`
is empty), or it holds the serialisation of the object `m`. -/
def HoldsStatusMap (kv : Kv) (m : List (String × Json)) : Prop :=
  (kv.get ACCOUNT_STATUS_KEY = none ∧ m = []) ∨
  (kv.get ACCOUNT_STATUS_KEY = some (.plain "") ∧ m = []) ∨
  kv.get ACCOUNT_STATUS_KEY = some (.json (.obj m))

instance (kv : Kv) (m : List (String × Json)) : Decidable (HoldsStatusMap kv m) := by
  unfold HoldsStatusMap; infer_instance

namespace Json
mutual
/-- Whether the value holds no number that is not finite (`Infinity`, `-Infinity`, `NaN`), at
any depth. -/
def finite : Json → Bool
  | null => true
  | bool _ => true
  | num t => decide (¬ (t = "Infinity" ∨ t = "-Infinity" ∨ t = "NaN"))
  | str _ => true
  | arr xs => finiteItems xs
  | obj kvs => finiteFields kvs
/-- Whether every element of an array is finite. -/
def finiteItems : List Json → Bool
  | [] => true
  | x :: rest => finite x && finiteItems rest
/-- Whether every field of an object is finite. -/
def finiteFields : List (String × Json) → Bool
  | [] => true
  | (_, v) :: rest => finite v && finiteFields rest
end
end Json

/-! ## Sample inputs -/

/-- A host whose array, string, number and boolean prototypes define no names; the samples
below only read plain objects. -/
def plainHost : Host := ⟨fun _ _ => false⟩

/-- A store that accepts the read and both writes of `saveLogs`. -/
def sampleSave : SaveTrace :=
  ⟨false, false, false, "2024-01-01T00:00:00.000Z", "2024-01-01T00:00:00.001Z"⟩

/-- A store that accepts the read and the write of `updateAccountStatus`. -/
def sampleStatus : StatusTrace := ⟨false, false, "2024-01-01T00:00:00.002Z"⟩

/-- One successful run to be saved. -/
def sampleCall : SaveCall := ⟨sampleSave, ["run"], true⟩

/-- A store whose two JSON-valued keys hold text that is not JSON. -/
def malformedStore : Kv :=
  ⟨[("history", .plain "not json"), ("account_status", .plain "not json")]⟩

/-- Two accounts in the list form, the second without a name and without an application
URL. -/
def listEnv : Env :=
  { KOYEB_TOKENS := some (.json (.arr
      [.obj [("name", .str "A"), ("token", .str "t1"), ("appUrl", .str "https://a.example")],
       .obj [("token", .str "t2")]])),
    KOYEB_TOKEN := none, KOYEB_APP_URL := none, KOYEB_APP_URLS := none, LOG_KV := none }

/-- One account in the list form whose `name` and `appUrl` are present and empty. -/
def emptyNameEnv : Env :=
  { KOYEB_TOKENS := some (.json (.arr
      [.obj [("name", .str ""), ("token", .str "t1"), ("appUrl", .str "")]])),
    KOYEB_TOKEN := none, KOYEB_APP_URL := none, KOYEB_APP_URLS := none, LOG_KV := none }

/-- Three accounts, the second with its own application URL, and a name-to-URL map with entries
for the first two. -/
def mergeEnv : Env :=
  { KOYEB_TOKENS := some (.json (.arr
      [.obj [("name", .str "A"), ("token", .str "t1")],
       .obj [("name", .str "B"), ("token", .str "t2"), ("appUrl", .str "https://b.example")],
       .obj [("name", .str "C"), ("token", .str "t3")]])),
    KOYEB_TOKEN := none, KOYEB_APP_URL := none,
    KOYEB_APP_URLS := some (.json (.obj
      [("A", .str "https://a.example"), ("B", .str "https://other.example")])),
    LOG_KV := none }

/-- One account without an application URL, and a map whose entry for it is the empty
string. -/
def emptyUrlEnv : Env :=
  { KOYEB_TOKENS := some (.json (.arr [.obj [("name", .str "A"), ("token", .str "t1")]])),
    KOYEB_TOKEN := none, KOYEB_APP_URL := none,
    KOYEB_APP_URLS := some (.json (.obj [("A", .str "")])),
    LOG_KV := none }

/-- A list form that is not JSON, next to a legacy token. -/
def badTokensEnv : Env :=
  { KOYEB_TOKENS := some (.plain "not json"),
    KOYEB_TOKEN := some "legacy-token", KOYEB_APP_URL := some "https://a.example",
    KOYEB_APP_URLS := none, LOG_KV := none }

/-- One account in the list form, and a name-to-URL map that is not JSON. -/
def badUrlsEnv : Env :=
  { KOYEB_TOKENS := some (.json (.arr [.obj [("name", .str "A"), ("token", .str "t1")]])),
    KOYEB_TOKEN := none, KOYEB_APP_URL := none,
    KOYEB_APP_URLS := some (.plain "not json"), LOG_KV := none }

/-- A status call answered `200` with a readable profile; the application ping succeeds. -/
def okTrace : AccountTrace :=
  { api := .responded
      ⟨200, "OK", .json (.obj [("user", .obj [("email", .str "a@example.com")])])⟩,
    apiDuration := 12, probe := .responded 200, pingDuration := 3, accountDuration := 20,
    finishedAt := "2024-01-01T00:00:01.000Z", lastRun := "2024-01-01T00:00:01.001Z",
    status := sampleStatus }

/-- A status call answered `401`. -/
def deniedTrace : AccountTrace :=
  { okTrace with api := .responded ⟨401, "Unauthorized", .unreadable "Unexpected token"⟩ }

/-- A status call answered `200` with a body that is not JSON. -/
def unreadableTrace : AccountTrace :=
  { okTrace with api := .responded ⟨200, "OK", .unreadable "Unexpected token"⟩ }

/-- The first account is answered `401`, every other account `200` with a readable body. -/
def sampleWorld : World :=
  { timestamp := "2024-01-01T00:00:00.000Z",
    account := fun i => if i = 0 then deniedTrace else okTrace,
    save := sampleSave }

/-- The first account is answered `401`, every other account `200` with an unreadable body. -/
def unreadableWorld : World :=
  { timestamp := "2024-01-01T00:00:00.000Z",
    account := fun i => if i = 0 then deniedTrace else unreadableTrace,
    save := sampleSave }

/-- No account is configured; an empty store is bound. -/
def noAccountsEnv : Env :=
  { KOYEB_TOKENS := none, KOYEB_TOKEN := none, KOYEB_APP_URL := none, KOYEB_APP_URLS := none,
    LOG_KV := some ⟨[]⟩ }

/-- Only the legacy settings: a token and an application URL. -/
def legacyEnv : Env :=
  { KOYEB_TOKENS := none, KOYEB_TOKEN := some "legacy-token",
    KOYEB_APP_URL := some "https://a.example", KOYEB_APP_URLS := none, LOG_KV := none }

/-- No list form, and a legacy token that is present and empty. -/
def emptyTokenEnv : Env :=
  { KOYEB_TOKENS := none, KOYEB_TOKEN := some "",
    KOYEB_APP_URL := some "https://a.example", KOYEB_APP_URLS := none, LOG_KV := none }

/-- A list form that parses to the empty array, a legacy token, and a legacy application URL
that is present and empty. -/
def emptyLegacyUrlEnv : Env :=
  { KOYEB_TOKENS := some (.json (.arr [])), KOYEB_TOKEN := some "legacy-token",
    KOYEB_APP_URL := some "", KOYEB_APP_URLS := none, LOG_KV := none }

/-- Two accounts in the list form with the same name. -/
def sameNameEnv : Env :=
  { KOYEB_TOKENS := some (.json (.arr
      [.obj [("name", .str "A"), ("token", .str "t1")],
       .obj [("name", .str "A"), ("token", .str "t2")]])),
    KOYEB_TOKEN := none, KOYEB_APP_URL := none, KOYEB_APP_URLS := none, LOG_KV := none }

/-- A store with the records of two accounts, the first carrying a field `region` that the
worker never writes, and an empty history. -/
def statusStore : Kv :=
  ⟨[("account_status", .json (.obj
      [("acc_1", .obj [("name", .str "A"), ("success", .bool true), ("region", .str "fra"),
                       ("updatedAt", .str "2023-12-31T00:00:00.000Z")]),
       ("acc_2", .obj [("name", .str "B"), ("success", .bool true)])])),
    ("history", .json (.arr []))]⟩

/-- A store whose history is the JSON text `[1e400]`: one entry, the number `Infinity`. -/
def overflowStore : Kv := ⟨[("history", .json (.arr [.num "Infinity"]))]⟩

/-- A store whose status map holds a record of `acc_2` with the duration `1e400`. -/
def overflowStatusStore : Kv :=
  ⟨[("account_status", .json (.obj
      [("acc_2", .obj [("name", .str "B"), ("lastDuration", .num "Infinity")])]))]⟩

/-- Two accounts in the list form; the name of the second is an object with an own `toString`
property. -/
def objectNameEnv : Env :=
  { KOYEB_TOKENS := some (.json (.arr
      [.obj [("name", .str "A"), ("token", .str "t1")],
       .obj [("name", .obj [("toString", .num "1")]), ("token", .str "t2")]])),
    KOYEB_TOKEN := none, KOYEB_APP_URL := none, KOYEB_APP_URLS := none, LOG_KV := none }

/-- No account is configured; the bound store holds a history that is not JSON. -/
def malformedHistoryEnv : Env :=
  { KOYEB_TOKENS := none, KOYEB_TOKEN := none, KOYEB_APP_URL := none, KOYEB_APP_URLS := none,
    LOG_KV := some malformedStore }

/-! ## Lemmas -/

theorem Kv.get_put_same (kv : Kv) (k : String) (v : Text) : (kv.put k v).get k = some v := by
  simp [Kv.get, Kv.put]

theorem find_filter_other (k k2 : String) (h : k2 ≠ k) (es : List (String × Text)) :
    (es.filter (fun e => e.1 ≠ k)).find? (fun e => e.1 = k2) = es.find? (fun e => e.1 = k2) := by
  induction es with
  | nil => rfl
  | cons e es ih =>
    by_cases he : e.1 = k
    · have h2 : ¬ e.1 = k2 := fun e2 => h (e2.symm.trans he)
      rw [List.filter_cons_of_neg (by simpa using he), List.find?_cons_of_neg _ (by simpa using h2)]
      exact ih
    · rw [List.filter_cons_of_pos (by simpa using he)]
      by_cases he2 : e.1 = k2
      · rw [List.find?_cons_of_pos _ (by simpa using he2), List.find?_cons_of_pos _ (by simpa using he2)]
      · rw [List.find?_cons_of_neg _ (by simpa using he2), List.find?_cons_of_neg _ (by simpa using he2)]
        exact ih

theorem Kv.get_put_other (kv : Kv) (k k2 : String) (v : Text) (h : k2 ≠ k) :
    (kv.put k v).get k2 = kv.get k2 := by
  have hk : ¬ k = k2 := fun e => h e.symm
  unfold Kv.get Kv.put
  simp only []
  rw [List.find?_cons_of_neg _ (by simpa using hk), find_filter_other k k2 h]

theorem take_limit (l : List Json) :
    (if l.length > LOG_LIMIT then l.take LOG_LIMIT else l) = l.take LOG_LIMIT := by
  split
  · rfl
  · rw [List.take_of_length_le (by omega)]

/-! ### Serialisation -/

theorem storableItems_eq_map (xs : List Json) :
    Json.storableItems xs = xs.map Json.storable := by
  induction xs with
  | nil => rfl
  | cons x rest ih => simp [Json.storableItems, ih]

theorem getOwn_storableFields (m : List (String × Json)) (k : String) :
    getOwn (Json.storableFields m) k = (getOwn m k).map Json.storable := by
  induction m with
  | nil => rfl
  | cons e rest ih =>
    obtain ⟨k0, v0⟩ := e
    by_cases h : k0 = k
    · simp [Json.storableFields, getOwn, h]
    · simp [Json.storableFields, getOwn, h, ih]

mutual
theorem storable_idem : ∀ (v : Json), v.storable.storable = v.storable
  | .null => rfl
  | .bool _ => rfl
  | .num t => by
    by_cases h : t = "Infinity" ∨ t = "-Infinity" ∨ t = "NaN"
    · simp [Json.storable, h]
    · simp [Json.storable, h]
  | .str _ => rfl
  | .arr xs => by
    simp only [Json.storable]
    rw [storableItems_idem xs]
  | .obj kvs => by
    simp only [Json.storable]
    rw [storableFields_idem kvs]
theorem storableItems_idem : ∀ (xs : List Json),
    Json.storableItems (Json.storableItems xs) = Json.storableItems xs
  | [] => rfl
  | x :: rest => by
    simp only [Json.storableItems]
    rw [storable_idem x, storableItems_idem rest]
theorem storableFields_idem : ∀ (kvs : List (String × Json)),
    Json.storableFields (Json.storableFields kvs) = Json.storableFields kvs
  | [] => rfl
  | (k, v) :: rest => by
    simp only [Json.storableFields]
    rw [storable_idem v, storableFields_idem rest]
end

mutual
theorem storable_of_finite : ∀ (v : Json), v.finite = true → v.storable = v
  | .null, _ => rfl
  | .bool _, _ => rfl
  | .num t, h => by
    simp only [Json.finite, decide_eq_true_eq] at h
    simp [Json.storable, h]
  | .str _, _ => rfl
  | .arr xs, h => by
    simp only [Json.finite] at h
    simp only [Json.storable]
    rw [storableItems_of_finite xs h]
  | .obj kvs, h => by
    simp only [Json.finite] at h
    simp only [Json.storable]
    rw [storableFields_of_finite kvs h]
theorem storableItems_of_finite : ∀ (xs : List Json), Json.finiteItems xs = true →
    Json.storableItems xs = xs
  | [], _ => rfl
  | x :: rest, h => by
    simp only [Json.finiteItems, Bool.and_eq_true] at h
    simp only [Json.storableItems]
    rw [storable_of_finite x h.1, storableItems_of_finite rest h.2]
theorem storableFields_of_finite : ∀ (kvs : List (String × Json)),
    Json.finiteFields kvs = true → Json.storableFields kvs = kvs
  | [], _ => rfl
  | (k, v) :: rest, h => by
    simp only [Json.finiteFields, Bool.and_eq_true] at h
    simp only [Json.storableFields]
    rw [storable_of_finite v h.1, storableFields_of_finite rest h.2]
end

mutual
theorem finite_storable : ∀ (v : Json), v.storable.finite = true
  | .null => rfl
  | .bool _ => rfl
  | .num t => by
    by_cases h : t = "Infinity" ∨ t = "-Infinity" ∨ t = "NaN"
    · simp [Json.storable, h, Json.finite]
    · simp [Json.storable, h, Json.finite]
  | .str _ => rfl
  | .arr xs => by
    simp only [Json.storable, Json.finite]
    exact finiteItems_storable xs
  | .obj kvs => by
    simp only [Json.storable, Json.finite]
    exact finiteFields_storable kvs
theorem finiteItems_storable : ∀ (xs : List Json),
    Json.finiteItems (Json.storableItems xs) = true
  | [] => rfl
  | x :: rest => by
    simp only [Json.storableItems, Json.finiteItems, Bool.and_eq_true]
    exact ⟨finite_storable x, finiteItems_storable rest⟩
theorem finiteFields_storable : ∀ (kvs : List (String × Json)),
    Json.finiteFields (Json.storableFields kvs) = true
  | [] => rfl
  | (k, v) :: rest => by
    simp only [Json.storableFields, Json.finiteFields, Bool.and_eq_true]
    exact ⟨finite_storable v, finiteFields_storable rest⟩
end

theorem map_storable_of_finite (l : List Json) (h : ∀ p ∈ l, p.finite = true) :
    l.map Json.storable = l := by
  induction l with
  | nil => rfl
  | cons x rest ih =>
    simp only [List.map_cons]
    rw [storable_of_finite x (h x (by simp)), ih (fun p hp => h p (by simp [hp]))]

theorem finite_of_storable_fixed (v : Json) (h : v.storable = v) : v.finite = true :=
  h ▸ finite_storable v

theorem storable_strings (l : List String) :
    (l.map Json.str).map Json.storable = l.map Json.str := by
  induction l with
  | nil => rfl
  | cons x rest ih => simp [Json.storable, ih]

theorem storable_logEntry (time : String) (newLogs : List String) (status : Bool) :
    (logEntry time newLogs status).storable = logEntry time newLogs status := by
  simp [logEntry, Json.storable, Json.storableFields, storableItems_eq_map, storable_strings]

theorem stringify_arr (xs : List Json) :
    JSON.stringify (.arr xs) = .json (.arr (xs.map Json.storable)) := by
  simp [JSON.stringify, Json.storable, storableItems_eq_map]

theorem stringify_obj (m : List (String × Json)) :
    JSON.stringify (.obj m) = .json (.obj (Json.storableFields m)) := by
  simp [JSON.stringify, Json.storable]

/-! ### The history write -/

theorem stringify_history (e : Json) (l : List Json) (he : e.storable = e) :
    JSON.stringify (.arr ((e :: l).take LOG_LIMIT)) =
      .json (.arr ((e :: l.map Json.storable).take LOG_LIMIT)) := by
  rw [stringify_arr, List.map_take, List.map_cons, he]

theorem saveLogs_working (x : SaveTrace) (kv : Kv) (xs : List Json) (newLogs : List String)
    (status : Bool) (hx : x.working) (h : HoldsHistory kv xs) :
    saveLogs x (some kv) newLogs status =
      some ((kv.put "history"
        (.json (.arr ((logEntry x.time newLogs status :: xs.map Json.storable).take
          LOG_LIMIT)))).put "last_run" (.plain x.lastRun)) := by
  obtain ⟨h1, h2, h3⟩ := hx
  have hs := fun l => stringify_history (logEntry x.time newLogs status) l
    (storable_logEntry x.time newLogs status)
  rcases h with ⟨hg, rfl⟩ | ⟨hg, rfl⟩ | hg
  · simp only [saveLogs, h1, h2, h3, hg, truthyText, take_limit, hs]
    simp
  · simp only [saveLogs, h1, h2, h3, hg, truthyText, Text.truthy, take_limit, hs]
    simp
  · simp only [saveLogs, h1, h2, h3, hg, truthyText, Text.truthy, JSON.parse, take_limit, hs]
    simp

theorem holdsHistory_after_save (kv : Kv) (ys : List Json) (t : Text) :
    HoldsHistory ((kv.put "history" (.json (.arr ys))).put "last_run" t) ys := by
  right; right
  rw [Kv.get_put_other _ _ _ _ (by decide), Kv.get_put_same]

theorem storable_fixed_after_save (e : Json) (xs : List Json) (he : e.storable = e) :
    ∀ p ∈ (e :: xs.map Json.storable).take LOG_LIMIT, p.storable = p := by
  intro p hp
  have := List.mem_of_mem_take hp
  rcases List.mem_cons.1 this with h | h
  · rw [h]; exact he
  · obtain ⟨q, _, rfl⟩ := List.mem_map.1 h
    exact storable_idem q

theorem runSaves_holds (calls : List SaveCall) : ∀ (kv : Kv) (xs : List Json),
    HoldsHistory kv xs → (∀ c ∈ calls, c.trace.working) →
    ∃ kv1 prev, runSaves calls (some kv) = some kv1 ∧ HoldsHistory kv1 prev ∧
      min (xs.length + calls.length) LOG_LIMIT ≤ prev.length ∧
      (calls ≠ [] ∨ (∀ p ∈ xs, p.storable = p) → ∀ p ∈ prev, p.storable = p) := by
  induction calls with
  | nil =>
    intro kv xs h _
    refine ⟨kv, xs, rfl, h, by simp, ?_⟩
    intro hx
    rcases hx with hx | hx
    · exact absurd rfl hx
    · exact hx
  | cons c cs ih =>
    intro kv xs h hw
    have hc := saveLogs_working c.trace kv xs c.newLogs c.status (hw c (by simp)) h
    obtain ⟨kv1, prev, h1, h2, h3, h4⟩ :=
      ih _ _ (holdsHistory_after_save kv _ (.plain c.trace.lastRun))
        (fun d hd => hw d (by simp [hd]))
    refine ⟨kv1, prev, ?_, h2, ?_, ?_⟩
    · simp only [runSaves, List.foldl_cons] at h1 ⊢
      rw [hc]; exact h1
    · simp only [List.length_take, List.length_cons, List.length_map] at h3 ⊢
      omega
    · intro _
      exact h4 (Or.inr (storable_fixed_after_save _ xs (storable_logEntry _ _ _)))

theorem saveLogs_unparsable (x : SaveTrace) (kv : Kv) (s : String) (newLogs : List String)
    (status : Bool) (h : kv.get "history" = some (.plain s)) (hs : s ≠ "") :
    saveLogs x (some kv) newLogs status = some kv := by
  unfold saveLogs
  simp only [h, truthyText, Text.truthy, JSON.parse]
  by_cases hg : x.getFails = true <;> simp [hs, hg]

theorem updateAccountStatus_unparsable (host : Host) (x : StatusTrace) (kv : Kv) (s : String)
    (accountId : String) (status : Json) (h : kv.get ACCOUNT_STATUS_KEY = some (.plain s))
    (hs : s ≠ "") :
    updateAccountStatus host x (some kv) accountId status = some kv := by
  unfold updateAccountStatus
  simp only [h, truthyText, Text.truthy, JSON.parse]
  by_cases hg : x.getFails = true <;> simp [hs, hg]

theorem ownEntries_inherited (host : Host) (key : String) :
    ownEntries (inheritedProperty host none key) = [] := by
  unfold inheritedProperty
  split
  · rfl
  · split <;> rfl

theorem mergedRecord_inherited (host : Host) (key : String) (status : Json) (t : String) :
    mergedRecord (inheritedProperty host none key) status t = mergedRecord .undefined status t := by
  unfold mergedRecord
  rw [ownEntries_inherited]
  rfl

theorem updateAccountStatus_missing (host : Host) (x : StatusTrace) (kv : Kv)
    (accountId : String) (status : Json) (h : kv.get ACCOUNT_STATUS_KEY = none)
    (hg : x.getFails = false) (hp : x.putFails = false) (hid : accountId ≠ "__proto__") :
    updateAccountStatus host x (some kv) accountId status =
      some (kv.put ACCOUNT_STATUS_KEY
        (JSON.stringify (.obj [(accountId, mergedRecord .undefined status x.updatedAt)]))) := by
  unfold updateAccountStatus
  simp only [h, truthyText, hg, hp, getProperty, getOwn, assignProperty, mergedRecord_inherited,
    setOwn]
  simp [hid, getOwn, setOwn, mergedRecord_inherited]

theorem Json.isObject_iff (e : Json) (h : e.isObject = true) : ∃ fields, e = Json.obj fields := by
  cases e <;> simp [Json.isObject] at h
  exact ⟨_, rfl⟩

/-! ### parseAccounts -/

theorem mergeAccount_fields (host : Host) (appUrls : Json) (a b : Account)
    (h : mergeAccount host appUrls a = .ok b) :
    b.id = a.id ∧ b.name = a.name ∧ b.token = a.token := by
  unfold mergeAccount at h
  split at h
  · cases h
  · split at h
    · cases h
    · split at h
      · cases h
      · split at h <;> (cases h; exact ⟨rfl, rfl, rfl⟩)

theorem mergeAppUrls_length (host : Host) (appUrls : Json) (l : List Account) :
    (mergeAppUrls host appUrls l).length = l.length := by
  induction l with
  | nil => rfl
  | cons a rest ih =>
    unfold mergeAppUrls
    split
    · rfl
    · simp [ih]

theorem mergeAppUrls_get (host : Host) (appUrls : Json) (l : List Account) :
    ∀ (i : Nat) (a : Account), l[i]? = some a →
      ∃ b, (mergeAppUrls host appUrls l)[i]? = some b ∧
        b.id = a.id ∧ b.name = a.name ∧ b.token = a.token := by
  induction l with
  | nil => intro i a h; simp at h
  | cons x rest ih =>
    intro i a h
    unfold mergeAppUrls
    split
    · exact ⟨a, h, rfl, rfl, rfl⟩
    · rename_i merged hm
      cases i with
      | zero =>
        simp only [List.getElem?_cons_zero, Option.some.injEq] at h
        subst h
        exact ⟨merged, by simp, mergeAccount_fields host appUrls _ _ hm⟩
      | succ j =>
        simp only [List.getElem?_cons_succ] at h ⊢
        exact ih j a h

theorem parseAccounts_of_configured (host : Host) (env : Env) (accounts : List Account)
    (h : configuredAccounts env = .ok accounts) :
    (parseAccounts host env).length = accounts.length ∧
    ∀ (i : Nat) (a : Account), accounts[i]? = some a →
      ∃ b, (parseAccounts host env)[i]? = some b ∧
        b.id = a.id ∧ b.name = a.name ∧ b.token = a.token := by
  unfold parseAccounts
  rw [h]
  simp only
  split
  · split
    · split
      · exact ⟨rfl, fun i a ha => ⟨a, ha, rfl, rfl, rfl⟩⟩
      · exact ⟨mergeAppUrls_length _ _ _, mergeAppUrls_get _ _ _⟩
    · exact ⟨rfl, fun i a ha => ⟨a, ha, rfl, rfl, rfl⟩⟩
  · exact ⟨rfl, fun i a ha => ⟨a, ha, rfl, rfl, rfl⟩⟩

theorem parseAccounts_of_error (host : Host) (env : Env) (e : JsError)
    (h : configuredAccounts env = .error e) : parseAccounts host env = [] := by
  unfold parseAccounts
  rw [h]

/-- The account the list form builds from the fields of the entry at position `index`. -/
theorem accountOfEntry_obj (fields : List (String × Json)) (index : Nat) :
    accountOfEntry (.obj fields) index =
      .ok { id := "acc_" ++ toString (index + 1),
            name := orElse (getOwn fields "name") (.str ("Account " ++ toString (index + 1))),
            token := getOwn fields "token",
            appUrl := .data (orElse (getOwn fields "appUrl") .null) } := by
  rfl

theorem mapEntries_objects : ∀ (entries : List Json) (k : Nat),
    (∀ e ∈ entries, e.isObject = true) →
    ∃ accounts, mapEntries entries k = .ok accounts ∧ accounts.length = entries.length ∧
      ∀ (i : Nat) (fields : List (String × Json)), entries[i]? = some (.obj fields) →
        accounts[i]? = some
          { id := "acc_" ++ toString (k + i + 1),
            name := orElse (getOwn fields "name") (.str ("Account " ++ toString (k + i + 1))),
            token := getOwn fields "token",
            appUrl := .data (orElse (getOwn fields "appUrl") .null) } := by
  intro entries
  induction entries with
  | nil => intro k _; exact ⟨[], rfl, rfl, fun i f h => by simp at h⟩
  | cons e rest ih =>
    intro k hobj
    obtain ⟨fields, rfl⟩ := Json.isObject_iff e (hobj e (by simp))
    obtain ⟨accounts, h1, h2, h3⟩ := ih (k + 1) (fun d hd => hobj d (by simp [hd]))
    refine ⟨({ id := "acc_" ++ toString (k + 1),
               name := orElse (getOwn fields "name") (.str ("Account " ++ toString (k + 1))),
               token := getOwn fields "token",
               appUrl := .data (orElse (getOwn fields "appUrl") .null) } : Account) :: accounts,
      ?_, by simp [h2], ?_⟩
    · unfold mapEntries
      rw [accountOfEntry_obj, h1]
    · intro i f hi
      cases i with
      | zero =>
        simp only [List.getElem?_cons_zero, Option.some.injEq, Json.obj.injEq] at hi
        subst hi
        simp
      | succ j =>
        simp only [List.getElem?_cons_succ] at hi ⊢
        rw [h3 j f hi]
        have : k + 1 + j + 1 = k + (j + 1) + 1 := by omega
        rw [this]

theorem orElse_truthy (a : Option Json) (d v : Json) (h : a = some v) (hv : v.truthy = true) :
    orElse a d = v := by
  subst h; simp [orElse, hv]

theorem orElse_falsy (a : Option Json) (d : Json) (h : ∀ v, a = some v → v.truthy = false) :
    orElse a d = d := by
  cases a with
  | none => rfl
  | some v => simp [orElse, h v rfl]

theorem mergeAccount_obj (host : Host) (kvs : List (String × Json)) (a : Account) (key : String)
    (hkey : a.name.toStr = .ok key) :
    ∃ b, mergeAccount host (.obj kvs) a = .ok b ∧
      (∀ v, a.appUrl.truthy = false → getOwn kvs key = some v → v.truthy = true →
        b.appUrl = .data v) ∧
      (a.appUrl.truthy = true → b = a) ∧
      (getOwn kvs key = none → key ∉ objectPrototypeKeys → b = a) ∧
      (∀ v, getOwn kvs key = some v → v.truthy = false → b = a) := by
  unfold mergeAccount
  simp only [hkey, getProperty]
  cases hg : getOwn kvs key with
  | some v =>
    simp only
    by_cases hc : (Val.data v).truthy = true ∧ ¬ a.appUrl.truthy = true
    · rw [if_pos hc]
      refine ⟨_, rfl, ?_, ?_, ?_, ?_⟩
      · intro v2 _ h2 _; cases h2; rfl
      · intro h; exact absurd h hc.2
      · intro h; cases h
      · intro v2 h2 h3; cases h2; simp [Val.truthy, h3] at hc
    · rw [if_neg hc]
      refine ⟨_, rfl, ?_, ?_, ?_, ?_⟩
      · intro v2 h1 h2 h3; cases h2
        exact absurd ⟨by simpa [Val.truthy] using h3, by simp [h1]⟩ hc
      · intro _; rfl
      · intro _ _; rfl
      · intro _ _ _; rfl
  | none =>
    simp only
    by_cases hc : (inheritedProperty host none key).truthy = true ∧ ¬ a.appUrl.truthy = true
    · rw [if_pos hc]
      refine ⟨_, rfl, ?_, ?_, ?_, ?_⟩
      · intro v2 _ h2 _; cases h2
      · intro h; exact absurd h hc.2
      · intro _ hk
        have : inheritedProperty host none key = .undefined := by
          simp [inheritedProperty, hk]
        rw [this] at hc
        simp [Val.truthy] at hc
      · intro v2 h2; cases h2
    · rw [if_neg hc]
      refine ⟨_, rfl, ?_, ?_, ?_, ?_⟩
      · intro v2 _ h2; cases h2
      · intro _; rfl
      · intro _ _; rfl
      · intro _ _ _; rfl

theorem Json.renders_iff (v : Json) (h : v.renders = true) : ∃ key, v.toStr = .ok key := by
  unfold Json.renders at h
  split at h
  · exact ⟨_, by assumption⟩
  · cases h

theorem mergeAppUrls_obj (host : Host) (kvs : List (String × Json)) (l : List Account)
    (hnames : ∀ a ∈ l, a.name.renders = true) :
    ∀ (i : Nat) (a : Account), l[i]? = some a →
      ∃ b, (mergeAppUrls host (.obj kvs) l)[i]? = some b ∧
        mergeAccount host (.obj kvs) a = .ok b := by
  induction l with
  | nil => intro i a h; simp at h
  | cons x rest ih =>
    intro i a h
    obtain ⟨key, hkey⟩ := Json.renders_iff _ (hnames x (by simp))
    obtain ⟨b, hb, _⟩ := mergeAccount_obj host kvs x key hkey
    unfold mergeAppUrls
    rw [hb]
    cases i with
    | zero =>
      simp only [List.getElem?_cons_zero, Option.some.injEq] at h
      subst h
      exact ⟨b, by simp, hb⟩
    | succ j =>
      simp only [List.getElem?_cons_succ] at h ⊢
      exact ih (fun c hc => hnames c (by simp [hc])) j a h

theorem digitChar_value (d : Nat) (h : d < 10) : (Nat.digitChar d).toNat - 48 = d := by
  interval_cases d <;> rfl

theorem digitsValue_toDigitsCore : ∀ (fuel n : Nat) (ds : List Char), n < fuel →
    digitsValue (Nat.toDigitsCore 10 fuel n ds) 0 = digitsValue ds n := by
  intro fuel
  induction fuel with
  | zero => intro n ds h; omega
  | succ f ih =>
    intro n ds h
    unfold Nat.toDigitsCore
    simp only
    split
    · rename_i h0
      have hn : n < 10 := by
        by_contra hc
        have : 0 < n / 10 := Nat.div_pos (by omega) (by decide)
        omega
      simp only [digitsValue, List.foldl_cons, Nat.mul_zero, Nat.zero_add]
      rw [digitChar_value _ (Nat.mod_lt _ (by decide)), Nat.mod_eq_of_lt hn]
    · rename_i h0
      have hlt : n / 10 < f := by
        have : n / 10 < n := Nat.div_lt_self (by
          by_contra hc
          have : n = 0 := by omega
          subst this
          simp at h0) (by decide)
        omega
      rw [ih (n / 10) _ hlt]
      simp only [digitsValue, List.foldl_cons]
      rw [digitChar_value _ (Nat.mod_lt _ (by decide))]
      congr 1
      omega

theorem toString_nat_injective (m n : Nat) (h : toString m = toString n) : m = n := by
  have h2 : Nat.toDigits 10 m = Nat.toDigits 10 n := by
    have := congrArg String.data h
    simpa [toString, Nat.repr, List.asString] using this
  have hm := digitsValue_toDigitsCore (m + 1) m [] (by omega)
  have hn := digitsValue_toDigitsCore (n + 1) n [] (by omega)
  unfold Nat.toDigits at h2
  rw [h2, hn] at hm
  simpa [digitsValue] using hm.symm

theorem accountId_injective (i j : Nat)
    (h : "acc_" ++ toString (i + 1) = "acc_" ++ toString (j + 1)) : i = j := by
  have h2 := congrArg String.data h
  simp only [String.data_append] at h2
  have h3 := List.append_cancel_left h2
  have h4 : toString (i + 1) = toString (j + 1) := String.ext h3
  have := toString_nat_injective _ _ h4
  omega

theorem accountOfEntry_id (acc : Json) (index : Nat) (a : Account)
    (h : accountOfEntry acc index = .ok a) : a.id = "acc_" ++ toString (index + 1) := by
  unfold accountOfEntry at h
  split at h
  · cases h; rfl
  · cases h
  · cases h
  · cases h

theorem mapEntries_ids : ∀ (entries : List Json) (k : Nat) (accounts : List Account),
    mapEntries entries k = .ok accounts →
    ∀ (i : Nat) (a : Account), accounts[i]? = some a → a.id = "acc_" ++ toString (k + i + 1) := by
  intro entries
  induction entries with
  | nil =>
    intro k accounts h i a hi
    simp only [mapEntries, Except.ok.injEq] at h
    subst h
    simp at hi
  | cons e rest ih =>
    intro k accounts h i a hi
    unfold mapEntries at h
    split at h
    · cases h
    · rename_i account hacc
      split at h
      · cases h
      · rename_i others hrest
        cases h
        cases i with
        | zero =>
          simp only [List.getElem?_cons_zero, Option.some.injEq] at hi
          subst hi
          exact accountOfEntry_id _ _ _ hacc
        | succ j =>
          simp only [List.getElem?_cons_succ] at hi
          have := ih (k + 1) others hrest j a hi
          rw [this]
          have : k + 1 + j + 1 = k + (j + 1) + 1 := by omega
          rw [this]

theorem configuredAccounts_ids (env : Env) (accounts : List Account)
    (h : configuredAccounts env = .ok accounts) :
    ∀ (i : Nat) (a : Account), accounts[i]? = some a → a.id = "acc_" ++ toString (i + 1) := by
  intro i a hi
  unfold configuredAccounts at h
  split at h
  · cases h
  · rename_i listed hl
    split at h
    · cases h
      cases i with
      | zero =>
        simp only [List.getElem?_cons_zero, Option.some.injEq] at hi
        subst hi
        rfl
      | succ j => simp at hi
    · cases h
      unfold accountsFromTokens at hl
      split at hl
      · split at hl
        · split at hl
          · cases hl
          · have := mapEntries_ids _ 0 _ hl i a hi
            simpa using this
          · cases hl; simp at hi
        · cases hl; simp at hi
      · cases hl; simp at hi

theorem parseAccounts_ids (host : Host) (env : Env) :
    ∀ (i : Nat) (a : Account), (parseAccounts host env)[i]? = some a →
      a.id = "acc_" ++ toString (i + 1) := by
  intro i b hb
  cases hc : configuredAccounts env with
  | error e =>
    rw [parseAccounts_of_error host env e hc] at hb
    simp at hb
  | ok accounts =>
    obtain ⟨hlen, hget⟩ := parseAccounts_of_configured host env accounts hc
    have hi : i < accounts.length := by
      rw [← hlen]
      exact (List.getElem?_eq_some.1 hb).1
    obtain ⟨b2, hb2, e1, _⟩ := hget i accounts[i] (List.getElem?_eq_getElem hi)
    rw [hb] at hb2
    cases hb2
    rw [e1]
    exact configuredAccounts_ids env accounts hc i _ (List.getElem?_eq_getElem hi)

theorem filter_by_id (l : List Account) : ∀ (f : Nat → String), Function.Injective f →
    (∀ (i : Nat) (a : Account), l[i]? = some a → a.id = f i) →
    ∀ (k : Nat) (a : Account), l[k]? = some a →
      l.filter (fun acc => decide (acc.id = a.id)) = [a] := by
  induction l with
  | nil => intro f _ _ k a h; simp at h
  | cons x rest ih =>
    intro f hf hid k a hk
    have hrest : ∀ (i : Nat) (b : Account), rest[i]? = some b → b.id = (f ∘ Nat.succ) i :=
      fun i b hb => hid (i + 1) b (by simpa using hb)
    have hinj : Function.Injective (f ∘ Nat.succ) := hf.comp Nat.succ_injective
    cases k with
    | zero =>
      simp only [List.getElem?_cons_zero, Option.some.injEq] at hk
      subst hk
      rw [List.filter_cons_of_pos (by simp)]
      congr 1
      rw [List.filter_eq_nil_iff]
      intro b hb
      obtain ⟨j, hj, rfl⟩ := List.mem_iff_getElem.1 hb
      have h1 := hrest j rest[j] (List.getElem?_eq_getElem hj)
      have h0 := hid 0 x (by simp)
      simp only [decide_eq_true_eq]
      intro heq
      rw [h1, h0] at heq
      have := hf heq
      simp at this
    | succ j =>
      simp only [List.getElem?_cons_succ] at hk
      have h1 := hrest j a hk
      have h0 := hid 0 x (by simp)
      have hne : ¬ x.id = a.id := by
        intro heq
        rw [h1, h0] at heq
        have := hf heq
        simp at this
      rw [List.filter_cons_of_neg (by simpa using hne)]
      exact ih _ hinj hrest j a hk

theorem parseAccounts_filter (host : Host) (env : Env) (k : Nat) (a : Account)
    (h : (parseAccounts host env)[k]? = some a) :
    (parseAccounts host env).filter (fun acc => decide (acc.id = a.id)) = [a] :=
  filter_by_id _ (fun i => "acc_" ++ toString (i + 1)) (fun i j hij => accountId_injective i j hij)
    (parseAccounts_ids host env) k a h

/-! ### The loop of keepAlive -/

theorem runResults_length (w : World) (l : List Account) : ∀ p, (runResults w l p).length = l.length := by
  induction l with
  | nil => intro p; rfl
  | cons a rest ih => intro p; simp [runResults, ih]

theorem runResults_get (w : World) (l : List Account) : ∀ (p i : Nat) (a : Account),
    l[i]? = some a → (runResults w l p)[i]? = some (resultOf a (w.account (p + i))) := by
  induction l with
  | nil => intro p i a h; simp at h
  | cons x rest ih =>
    intro p i a h
    cases i with
    | zero =>
      simp only [List.getElem?_cons_zero, Option.some.injEq] at h
      subst h
      simp [runResults]
    | succ j =>
      simp only [List.getElem?_cons_succ] at h
      simp only [runResults, List.getElem?_cons_succ]
      rw [ih (p + 1) j a h]
      have : p + 1 + j = p + (j + 1) := by omega
      rw [this]

theorem processAccounts_renders (host : Host) (w : World) (l : List Account) :
    ∀ (p : Nat) (s : LoopState), (∀ a ∈ l, a.name.renders = true) →
    ∃ s2, processAccounts host w l p s = (none, s2) ∧
      s2.results = s.results ++ runResults w l p ∧
      s2.allSuccess = (s.allSuccess && (runResults w l p).all (fun r => r.success)) := by
  induction l with
  | nil =>
    intro p s _
    exact ⟨s, rfl, by simp [runResults], by simp [runResults]⟩
  | cons a rest ih =>
    intro p s hn
    obtain ⟨key, hkey⟩ := Json.renders_iff _ (hn a (by simp))
    obtain ⟨s2, h1, h2, h3⟩ := ih (p + 1) (processAccount host w p a key s)
      (fun b hb => hn b (by simp [hb]))
    refine ⟨s2, ?_, ?_, ?_⟩
    · unfold processAccounts
      rw [hkey]
      exact h1
    · rw [h2]
      simp [processAccount, runResults]
    · rw [h3]
      simp [processAccount, runResults, resultOf, Bool.and_assoc]

theorem processAccounts_nil (host : Host) (w : World) (p : Nat) (s : LoopState) :
    processAccounts host w [] p s = (none, s) := rfl

theorem checkAccount_not2xx (a : Account) (t : AccountTrace) (h : t.api.is2xx = false) :
    (checkAccount a t).1 = false := by
  unfold checkAccount callStatusApi
  split
  · rename_i hc
    split at hc
    · cases hc
    · split at hc
      · cases hc
      · rename_i response hr
        rw [hr] at h
        simp only [ApiOutcome.is2xx] at h
        rw [h] at hc
        simp only [Bool.false_eq_true, if_false] at hc
        cases hc
        rfl
  · rfl

theorem checkAccount_ok (a : Account) (t : AccountTrace) (h : StatusCallOk a t) :
    (checkAccount a t).1 = true := by
  obtain ⟨⟨bearer, hb⟩, response, data, shown, text, h1, h2, h3, h4, h5⟩ := h
  unfold checkAccount callStatusApi
  simp [hb, h1, h2, h3, h4, h5]

theorem keepAlive_nonempty (host : Host) (w : World) (env : Env) (source : String)
    (sel : Option String) (hne : parseAccounts host env ≠ [])
    (hnames : ∀ a ∈ accountsToProcess (parseAccounts host env) sel, a.name.renders = true) :
    ∃ s2, (keepAlive host w env source sel) =
        { outcome := .ok { success := s2.allSuccess, logs := s2.logs, results := s2.results },
          store := saveLogs w.save s2.store s2.logs s2.allSuccess } ∧
      processAccounts host w (accountsToProcess (parseAccounts host env) sel) 0
        { logs := headerLines w.timestamp source (parseAccounts host env).length,
          results := [], allSuccess := true, store := env.LOG_KV } = (none, s2) ∧
      s2.results = runResults w (accountsToProcess (parseAccounts host env) sel) 0 ∧
      s2.allSuccess =
        (runResults w (accountsToProcess (parseAccounts host env) sel) 0).all
          (fun r => r.success) := by
  obtain ⟨s2, h1, h2, h3⟩ := processAccounts_renders host w _ 0
    { logs := headerLines w.timestamp source (parseAccounts host env).length,
      results := [], allSuccess := true, store := env.LOG_KV } hnames
  refine ⟨s2, ?_, h1, by simpa using h2, by simpa using h3⟩
  have hlen : ¬ (parseAccounts host env).length = 0 := fun h => hne (List.length_eq_zero.1 h)
  unfold keepAlive
  simp only [hlen, if_false]
  rw [h1]

theorem getHistory_after_save (x : SaveTrace) (kv : Kv) (xs : List Json) (newLogs : List String)
    (status : Bool) (hx : x.working) (h : HoldsHistory kv xs) :
    ∃ kv2, saveLogs x (some kv) newLogs status = some kv2 ∧
      getHistory false (some kv2) =
        .arr ((logEntry x.time newLogs status :: xs.map Json.storable).take LOG_LIMIT) := by
  refine ⟨_, saveLogs_working x kv xs newLogs status hx h, ?_⟩
  have hget : ((kv.put "history"
      (.json (.arr ((logEntry x.time newLogs status :: xs.map Json.storable).take
        LOG_LIMIT)))).put "last_run" (.plain x.lastRun)).get "history"
      = some (.json (.arr ((logEntry x.time newLogs status :: xs.map Json.storable).take
          LOG_LIMIT))) := by
    rw [Kv.get_put_other _ _ _ _ (by decide), Kv.get_put_same]
  simp only [getHistory, hget, Text.truthy, JSON.parse]
  simp

/-! ### Independence of the ping outcomes -/

theorem checkAccount_withProbes (w : World) (probes : Nat → ProbeOutcome) (pings : Nat → Int)
    (a : Account) (i : Nat) :
    checkAccount a ((w.withProbes probes pings).account i) = checkAccount a (w.account i) := by
  rfl

theorem processAccounts_withProbes (host : Host) (w : World) (probes : Nat → ProbeOutcome)
    (pings : Nat → Int) (l : List Account) : ∀ (p : Nat) (s t : LoopState),
    s.results.map AccountRunResult.view = t.results.map AccountRunResult.view →
    s.allSuccess = t.allSuccess →
    (processAccounts host (w.withProbes probes pings) l p s).1 = (processAccounts host w l p t).1 ∧
    (processAccounts host (w.withProbes probes pings) l p s).2.results.map AccountRunResult.view
      = (processAccounts host w l p t).2.results.map AccountRunResult.view ∧
    (processAccounts host (w.withProbes probes pings) l p s).2.allSuccess
      = (processAccounts host w l p t).2.allSuccess := by
  induction l with
  | nil => intro p s t h1 h2; exact ⟨rfl, h1, h2⟩
  | cons a rest ih =>
    intro p s t h1 h2
    unfold processAccounts
    cases hk : a.name.toStr with
    | error e => exact ⟨rfl, h1, h2⟩
    | ok key =>
      simp only
      apply ih
      · simp only [processAccount, List.map_append, h1, List.map_cons, List.map_nil,
          AccountRunResult.view, resultOf, checkAccount_withProbes]
      · simp only [processAccount, h2, checkAccount_withProbes]

/-! ### Independence of the store -/

theorem parseAccounts_store (host : Host) (env : Env) (kv : Option Kv) :
    parseAccounts host { env with LOG_KV := kv } = parseAccounts host env := rfl

theorem processAccounts_withStore (host : Host) (w : World) (status : Nat → StatusTrace)
    (lastRuns : Nat → String) (save : SaveTrace) (l : List Account) :
    ∀ (p : Nat) (s t : LoopState),
    s.logs = t.logs → s.results = t.results → s.allSuccess = t.allSuccess →
    (processAccounts host (w.withStore status lastRuns save) l p s).1
      = (processAccounts host w l p t).1 ∧
    (processAccounts host (w.withStore status lastRuns save) l p s).2.logs
      = (processAccounts host w l p t).2.logs ∧
    (processAccounts host (w.withStore status lastRuns save) l p s).2.results
      = (processAccounts host w l p t).2.results ∧
    (processAccounts host (w.withStore status lastRuns save) l p s).2.allSuccess
      = (processAccounts host w l p t).2.allSuccess := by
  induction l with
  | nil => intro p s t h1 h2 h3; exact ⟨rfl, h1, h2, h3⟩
  | cons a rest ih =>
    intro p s t h1 h2 h3
    unfold processAccounts
    cases hk : a.name.toStr with
    | error e => exact ⟨rfl, h1, h2, h3⟩
    | ok key =>
      simp only
      apply ih
      · simp only [processAccount, h1]; rfl
      · simp only [processAccount, h2]; rfl
      · simp only [processAccount, h3]; rfl

theorem processAccounts_unbound (host : Host) (w : World) (l : List Account) :
    ∀ (p : Nat) (s : LoopState), s.store = none →
      (processAccounts host w l p s).2.store = none := by
  induction l with
  | nil => intro p s h; exact h
  | cons a rest ih =>
    intro p s h
    unfold processAccounts
    cases hk : a.name.toStr with
    | error e => exact h
    | ok key =>
      simp only
      apply ih
      simp only [processAccount, h]

/-! ### Legacy fallback -/

theorem accountsFromTokens_empty (env : Env) (h : ListFormEmpty env) :
    accountsFromTokens env = .ok [] := by
  unfold accountsFromTokens
  rcases h with h | h | h <;> simp [h, truthyText, Text.truthy, JSON.parse, mapEntries]

theorem legacyAccount_appUrl (env : Env) :
    (∀ url, env.KOYEB_APP_URL = some url → url ≠ "" →
      (legacyAccount env).appUrl = .data (.str url)) ∧
    (env.KOYEB_APP_URL = none ∨ env.KOYEB_APP_URL = some "" →
      (legacyAccount env).appUrl = .data .null) := by
  constructor
  · intro url h hu
    simp [legacyAccount, h, truthyString, hu]
  · intro h
    rcases h with h | h <;> simp [legacyAccount, h, truthyString]

/-! ### Results order -/

theorem runResults_pairs (w : World) (l : List Account) : ∀ p,
    (runResults w l p).map (fun r => (r.id, r.name)) = l.map (fun a => (a.id, a.name)) := by
  induction l with
  | nil => intro p; rfl
  | cons a rest ih => intro p; simp [runResults, resultOf, ih]

/-! ### Shallow merge -/

theorem getOwn_setOwn_same (m : List (String × Json)) (k : String) (v : Json) :
    getOwn (setOwn m k v) k = some v := by
  induction m with
  | nil => simp [setOwn, getOwn]
  | cons e rest ih =>
    obtain ⟨k0, v0⟩ := e
    by_cases h : k0 = k
    · simp [setOwn, getOwn, h]
    · simp [setOwn, getOwn, h, ih]

theorem getOwn_setOwn_other (m : List (String × Json)) (k k2 : String) (v : Json)
    (h2 : k2 ≠ k) : getOwn (setOwn m k v) k2 = getOwn m k2 := by
  induction m with
  | nil =>
    have : ¬ k = k2 := fun e => h2 e.symm
    simp [setOwn, getOwn, this]
  | cons e rest ih =>
    obtain ⟨k0, v0⟩ := e
    by_cases h : k0 = k
    · subst h
      have : ¬ k0 = k2 := fun e => h2 e.symm
      simp [setOwn, getOwn, this]
    · by_cases h3 : k0 = k2
      · subst h3
        simp [setOwn, getOwn, h]
      · simp [setOwn, getOwn, h, h3, ih]

theorem getOwn_spreadInto (src : List (String × Json)) : ∀ (t : List (String × Json))
    (k : String),
    getOwn (spreadInto t src) k =
      (match getOwn (spreadInto [] src) k with
       | some v => some v
       | none => getOwn t k) := by
  induction src with
  | nil => intro t k; simp [spreadInto, getOwn]
  | cons e rest ih =>
    intro t k
    have h1 : spreadInto t (e :: rest) = spreadInto (setOwn t e.1 e.2) rest := rfl
    have h2 : spreadInto [] (e :: rest) = spreadInto [(e.1, e.2)] rest := rfl
    rw [h1, h2, ih (setOwn t e.1 e.2) k, ih [(e.1, e.2)] k]
    cases getOwn (spreadInto [] rest) k with
    | some v => rfl
    | none =>
      simp only
      by_cases h : e.1 = k
      · subst h
        simp [getOwn_setOwn_same, getOwn]
      · rw [getOwn_setOwn_other _ _ _ _ (fun e2 => h e2.symm)]
        simp [getOwn, h]

theorem getOwn_spread_filter (k0 k : String) (l : List (String × Json)) :
    getOwn (spreadInto [] (l.filter (fun e => e.1 ≠ k0))) k =
      if k = k0 then none else getOwn (spreadInto [] l) k := by
  induction l with
  | nil => simp [spreadInto, getOwn]
  | cons e rest ih =>
    have h2 : spreadInto [] (e :: rest) = spreadInto [(e.1, e.2)] rest := rfl
    by_cases he : e.1 = k0
    · rw [List.filter_cons_of_neg (by simpa using he), ih, h2, getOwn_spreadInto rest [(e.1, e.2)]]
      by_cases hk : k = k0
      · simp [hk]
      · have : ¬ e.1 = k := fun e2 => hk (e2.symm.trans he)
        simp only [hk, if_false, getOwn, this]
        cases getOwn (spreadInto [] rest) k <;> rfl
    · rw [List.filter_cons_of_pos (by simpa using he)]
      have h3 : spreadInto [] (e :: rest.filter (fun e => e.1 ≠ k0))
          = spreadInto [(e.1, e.2)] (rest.filter (fun e => e.1 ≠ k0)) := rfl
      rw [h3, getOwn_spreadInto _ [(e.1, e.2)], ih, h2, getOwn_spreadInto rest [(e.1, e.2)]]
      by_cases hk : k = k0
      · subst hk
        simp [getOwn, he]
      · simp [hk]

theorem getOwn_spread_dedup (kvs : List (String × Json)) (k : String) :
    getOwn (spreadInto [] (dedupKeys kvs)) k = getOwn kvs k := by
  induction kvs with
  | nil => rfl
  | cons e rest ih =>
    obtain ⟨k0, v0⟩ := e
    have h1 : dedupKeys ((k0, v0) :: rest)
        = (k0, v0) :: (dedupKeys rest).filter (fun e => e.1 ≠ k0) := rfl
    have h2 : spreadInto [] ((k0, v0) :: (dedupKeys rest).filter (fun e => e.1 ≠ k0))
        = spreadInto [(k0, v0)] ((dedupKeys rest).filter (fun e => e.1 ≠ k0)) := rfl
    rw [h1, h2, getOwn_spreadInto _ [(k0, v0)], getOwn_spread_filter, ih]
    by_cases hk : k = k0
    · subst hk
      simp [getOwn]
    · have : ¬ k0 = k := fun e => hk e.symm
      simp only [hk, if_false, getOwn, this]
      cases getOwn rest k <;> rfl

theorem spreadField_obj (fields : List (String × Json)) (k : String) :
    (Val.data (.obj fields)).spreadField k = getOwn fields k :=
  getOwn_spread_dedup fields k

theorem mergedRecord_fields (previous : Val) (status : Json) (t : String) :
    ∃ record, mergedRecord previous status t = .obj record ∧
      getOwn record "updatedAt" = some (.str t) ∧
      (∀ k v, k ≠ "updatedAt" → (Val.data status).spreadField k = some v →
        getOwn record k = some v) ∧
      (∀ k, k ≠ "updatedAt" → (Val.data status).spreadField k = none →
        getOwn record k = previous.spreadField k) := by
  refine ⟨_, rfl, getOwn_setOwn_same _ _ _, ?_, ?_⟩
  · intro k v hk hv
    rw [getOwn_setOwn_other _ _ _ _ hk, getOwn_spreadInto]
    unfold Val.spreadField at hv
    rw [hv]
  · intro k hk hv
    rw [getOwn_setOwn_other _ _ _ _ hk, getOwn_spreadInto]
    unfold Val.spreadField at hv
    rw [hv]
    rfl

theorem updateAccountStatus_of_map (host : Host) (x : StatusTrace) (kv : Kv)
    (m : List (String × Json)) (accountId : String) (status : Json)
    (hmap : HoldsStatusMap kv m) (hget : x.getFails = false) :
    updateAccountStatus host x (some kv) accountId status =
      (match getProperty host (.obj m) accountId with
       | .error _ => some kv
       | .ok previous =>
         match assignProperty (.obj m) accountId (mergedRecord previous status x.updatedAt) with
         | .error _ => some kv
         | .ok updated =>
           if x.putFails then some kv
           else some (kv.put ACCOUNT_STATUS_KEY (JSON.stringify updated))) := by
  unfold updateAccountStatus
  rcases hmap with ⟨h, rfl⟩ | ⟨h, rfl⟩ | h
  · simp only [hget, h, truthyText, Bool.false_eq_true, if_false]
  · simp only [hget, h, truthyText, Text.truthy, Bool.false_eq_true, if_false, ne_eq,
      not_true_eq_false, decide_False]
  · simp only [hget, h, truthyText, Text.truthy, Bool.false_eq_true, if_false, if_true,
      JSON.parse]

/-! ### Status call -/

theorem checkAccount_true (a : Account) (t : AccountTrace)
    (h : (checkAccount a t).1 = true) : StatusCallOk a t := by
  unfold checkAccount at h
  cases hc : callStatusApi a t with
  | error e => rw [hc] at h; cases h
  | ok p =>
    obtain ⟨flag, line⟩ := p
    rw [hc] at h
    simp only at h
    subst h
    unfold callStatusApi at hc
    cases ht : renderToken a.token with
    | error e => rw [ht] at hc; cases hc
    | ok bearer =>
      rw [ht] at hc
      simp only at hc
      cases ha : t.api with
      | threw m => rw [ha] at hc; cases hc
      | responded response =>
        rw [ha] at hc
        simp only at hc
        by_cases hok : response.ok = true
        · rw [if_pos hok] at hc
          cases hb : response.body with
          | unreadable m => rw [hb] at hc; cases hc
          | json data =>
            rw [hb] at hc
            simp only at hc
            cases hd : displayedEmail data with
            | error e => rw [hd] at hc; cases hc
            | ok shown =>
              rw [hd] at hc
              simp only at hc
              cases hs : shown.toStr with
              | error e => rw [hs] at hc; cases hc
              | ok text =>
                exact ⟨⟨bearer, ht⟩, response, data, shown, text, ha, hok, hb, hd, hs⟩
        · rw [if_neg hok] at hc
          cases hc

theorem checkAccount_iff (a : Account) (t : AccountTrace) :
    (checkAccount a t).1 = true ↔ StatusCallOk a t :=
  ⟨checkAccount_true a t, checkAccount_ok a t⟩

theorem statusCallOk_unreadable (a : Account) (t : AccountTrace) (response : Response)
    (message : String) (h1 : t.api = .responded response)
    (h2 : response.body = .unreadable message) : ¬ StatusCallOk a t := by
  rintro ⟨_, r, data, _, _, g1, _, g3, _⟩
  rw [h1] at g1
  cases g1
  rw [h2] at g3
  cases g3

/-! ### Merge of the application URLs, account by account -/

theorem mergeAccount_keeps (host : Host) (appUrls : Json) (a b : Account)
    (h : mergeAccount host appUrls a = .ok b) (ht : a.appUrl.truthy = true) : b = a := by
  unfold mergeAccount at h
  split at h
  · cases h
  · split at h
    · cases h
    · split at h
      · cases h
      · split at h
        · rename_i hc
          exact absurd ht hc.2
        · cases h; rfl

theorem mergeAppUrls_keeps (host : Host) (appUrls : Json) (l : List Account) :
    ∀ (i : Nat) (a : Account), l[i]? = some a → a.appUrl.truthy = true →
      (mergeAppUrls host appUrls l)[i]? = some a := by
  induction l with
  | nil => intro i a h; simp at h
  | cons x rest ih =>
    intro i a h ht
    unfold mergeAppUrls
    split
    · exact h
    · rename_i merged hm
      cases i with
      | zero =>
        simp only [List.getElem?_cons_zero, Option.some.injEq] at h
        subst h
        rw [mergeAccount_keeps host appUrls _ _ hm ht]
        simp
      | succ j =>
        simp only [List.getElem?_cons_succ] at h ⊢
        exact ih j a h ht

theorem mergeAppUrls_obj_upto (host : Host) (kvs : List (String × Json)) (l : List Account) :
    ∀ (i : Nat) (a : Account),
      (∀ (j : Nat) (c : Account), j ≤ i → l[j]? = some c → c.name.renders = true) →
      l[i]? = some a →
      ∃ b, (mergeAppUrls host (.obj kvs) l)[i]? = some b ∧
        mergeAccount host (.obj kvs) a = .ok b := by
  induction l with
  | nil => intro i a _ h; simp at h
  | cons x rest ih =>
    intro i a hn h
    obtain ⟨key, hkey⟩ := Json.renders_iff _ (hn 0 x (Nat.zero_le i) (by simp))
    obtain ⟨b, hb, _⟩ := mergeAccount_obj host kvs x key hkey
    unfold mergeAppUrls
    rw [hb]
    cases i with
    | zero =>
      simp only [List.getElem?_cons_zero, Option.some.injEq] at h
      subst h
      exact ⟨b, by simp, hb⟩
    | succ j =>
      simp only [List.getElem?_cons_succ] at h ⊢
      exact ih j a (fun k c hk hc => hn (k + 1) c (by omega) (by simpa using hc)) h

/-! ### Merged record of two objects -/

theorem mergedRecord_obj (pfields fields : List (String × Json)) (previous : Val) (t : String)
    (hprev : ∀ k, previous.spreadField k = getOwn pfields k) :
    ∃ record, mergedRecord previous (.obj fields) t = .obj record ∧
      getOwn record "updatedAt" = some (.str t) ∧
      (∀ k v, k ≠ "updatedAt" → getOwn fields k = some v → getOwn record k = some v) ∧
      (∀ k, k ≠ "updatedAt" → getOwn fields k = none → getOwn record k = getOwn pfields k) := by
  obtain ⟨record, h, r1, r2, r3⟩ := mergedRecord_fields previous (.obj fields) t
  refine ⟨record, h, r1, ?_, ?_⟩
  · intro k v hk hv
    exact r2 k v hk (by rw [spreadField_obj]; exact hv)
  · intro k hk hv
    rw [r3 k hk (by rw [spreadField_obj]; exact hv), hprev]

/-! ### Runs over accounts whose names render as text -/

/-- With an empty resolved list `keepAlive` returns the failed summary with the two header lines
and the no-accounts line, whatever the remote calls would answer; a working store whose history
is absent or an array `xs` then holds the `error` entry followed by `xs` as written back. -/
theorem keepAlive_empty_list (host : Host) (w : World) (env : Env) (source : String)
    (specificAccountId : Option String) (hempty : parseAccounts host env = []) :
    keepAlive host w env source specificAccountId =
      { outcome := .ok
          { success := false,
            logs := headerLines w.timestamp source 0 ++ [noAccountsLine w.timestamp],
            results := [] },
        store := saveLogs w.save env.LOG_KV
          (headerLines w.timestamp source 0 ++ [noAccountsLine w.timestamp]) false } ∧
    (headerLines w.timestamp source 0).length = 2 ∧
    (∀ traces : Nat → AccountTrace,
      keepAlive host { w with account := traces } env source specificAccountId =
        keepAlive host w env source specificAccountId) ∧
    (∀ (kv : Kv) (xs : List Json), env.LOG_KV = some kv → HoldsHistory kv xs →
      w.save.working →
      ∃ kv2, (keepAlive host w env source specificAccountId).store = some kv2 ∧
        getHistory false (some kv2) =
          .arr ((Json.obj [("time", .str w.save.time), ("status", .str "error"),
              ("messages", .arr ((headerLines w.timestamp source 0
                ++ [noAccountsLine w.timestamp]).map Json.str))] :: xs.map Json.storable).take LOG_LIMIT)) := by
  have hk : ∀ w2 : World, keepAlive host w2 env source specificAccountId =
      { outcome := .ok
          { success := false,
            logs := headerLines w2.timestamp source 0 ++ [noAccountsLine w2.timestamp],
            results := [] },
        store := saveLogs w2.save env.LOG_KV
          (headerLines w2.timestamp source 0 ++ [noAccountsLine w2.timestamp]) false } := by
    intro w2
    unfold keepAlive
    simp [hempty]
  refine ⟨hk w, rfl, fun traces => by rw [hk, hk], ?_⟩
  intro kv xs hkv hh hw
  rw [hk w, hkv]
  obtain ⟨kv2, h1, h2⟩ := getHistory_after_save w.save kv xs
    (headerLines w.timestamp source 0 ++ [noAccountsLine w.timestamp]) false hw hh
  exact ⟨kv2, h1, h2⟩

/-- A non-empty selector that equals no id of a non-empty list gives no results and
`success = true`, and a working store whose history is absent or an array holds the `success`
entry afterwards; a selector that equals the id of an account whose name renders as text gives
exactly the result of that account. -/
theorem keepAlive_with_selector (host : Host) (w : World) (env : Env) (source : String) (id : String)
    (hne : parseAccounts host env ≠ []) (hid : id ≠ "") :
    ((∀ a ∈ parseAccounts host env, a.id ≠ id) →
      keepAlive host w env source (some id) =
        { outcome := .ok
            { success := true,
              logs := headerLines w.timestamp source (parseAccounts host env).length,
              results := [] },
          store := saveLogs w.save env.LOG_KV
            (headerLines w.timestamp source (parseAccounts host env).length) true } ∧
      (∀ traces : Nat → AccountTrace,
        keepAlive host { w with account := traces } env source (some id) =
          keepAlive host w env source (some id)) ∧
      (∀ (kv : Kv) (xs : List Json), env.LOG_KV = some kv → HoldsHistory kv xs →
        w.save.working →
        ∃ kv2, (keepAlive host w env source (some id)).store = some kv2 ∧
          getHistory false (some kv2) =
            .arr ((Json.obj [("time", .str w.save.time), ("status", .str "success"),
                ("messages", .arr ((headerLines w.timestamp source
                  (parseAccounts host env).length).map Json.str))] :: xs.map Json.storable).take LOG_LIMIT))) ∧
    (∀ (k : Nat) (a : Account), (parseAccounts host env)[k]? = some a → a.id = id →
      a.name.renders = true →
      ∃ summary r, (keepAlive host w env source (some id)).outcome = .ok summary ∧
        summary.results = [r] ∧ r.id = a.id ∧ r.name = a.name ∧
        summary.success = r.success) := by
  have hlen : ¬ (parseAccounts host env).length = 0 := fun h => hne (List.length_eq_zero.1 h)
  constructor
  · intro hno
    have hfilter : accountsToProcess (parseAccounts host env) (some id) = [] := by
      simp only [accountsToProcess, hid, ne_eq, not_false_eq_true, if_true]
      rw [List.filter_eq_nil_iff]
      intro a ha
      simpa using hno a ha
    have hk : ∀ w2 : World, keepAlive host w2 env source (some id) =
        { outcome := .ok
            { success := true,
              logs := headerLines w2.timestamp source (parseAccounts host env).length,
              results := [] },
          store := saveLogs w2.save env.LOG_KV
            (headerLines w2.timestamp source (parseAccounts host env).length) true } := by
      intro w2
      unfold keepAlive
      simp only [hlen, if_false, hfilter, processAccounts_nil]
    refine ⟨hk w, fun traces => by rw [hk, hk], ?_⟩
    intro kv xs hkv hh hw
    rw [hk w, hkv]
    obtain ⟨kv2, h1, h2⟩ := getHistory_after_save w.save kv xs
      (headerLines w.timestamp source (parseAccounts host env).length) true hw hh
    exact ⟨kv2, h1, h2⟩
  · intro k a hk ha hr
    have hfilter : accountsToProcess (parseAccounts host env) (some id) = [a] := by
      simp only [accountsToProcess, hid, ne_eq, not_false_eq_true, if_true]
      rw [← ha]
      exact parseAccounts_filter host env k a hk
    obtain ⟨s2, h1, _, h3, h4⟩ := keepAlive_nonempty host w env source (some id) hne
      (by rw [hfilter]; intro b hb; rw [List.mem_singleton.1 hb]; exact hr)
    rw [hfilter] at h3 h4
    refine ⟨_, resultOf a (w.account 0), by rw [h1], h3, rfl, rfl, ?_⟩
    simp only [h4, runResults, List.all_cons, List.all_nil, Bool.and_true]

/-- When the names of the processed accounts render as text, the (id, name) pairs of `results`
are those of the processed accounts, in order. -/
theorem keepAlive_results_pairs (host : Host) (w : World) (env : Env) (source : String)
    (specificAccountId : Option String)
    (hne : parseAccounts host env ≠ [])
    (hnames : ∀ a ∈ accountsToProcess (parseAccounts host env) specificAccountId,
      a.name.renders = true) :
    ∃ summary, (keepAlive host w env source specificAccountId).outcome = .ok summary ∧
      summary.results.map (fun r => (r.id, r.name)) =
        (accountsToProcess (parseAccounts host env) specificAccountId).map
          (fun a => (a.id, a.name)) ∧
      summary.results.length =
        (accountsToProcess (parseAccounts host env) specificAccountId).length ∧
      (specificAccountId = none →
        accountsToProcess (parseAccounts host env) specificAccountId = parseAccounts host env) ∧
      (∀ id, specificAccountId = some id → id ≠ "" →
        accountsToProcess (parseAccounts host env) specificAccountId =
          (parseAccounts host env).filter (fun a => a.id = id)) ∧
      (specificAccountId = some "" →
        accountsToProcess (parseAccounts host env) specificAccountId = parseAccounts host env) := by
  obtain ⟨s2, h1, _, h3, _⟩ := keepAlive_nonempty host w env source specificAccountId hne hnames
  refine ⟨_, by rw [h1], ?_, ?_, ?_, ?_, ?_⟩
  · simp only [h3, runResults_pairs]
  · simp only [h3, runResults_length]
  · intro h; rw [h]; rfl
  · intro id h hid; rw [h]; simp [accountsToProcess, hid]
  · intro h; rw [h]; simp [accountsToProcess]

/-! ## Theorems -/

/-- Claim C1, as amended (partial-failure aggregation of `keepAlive`).  For a non-empty
resolved account list whose names render as text, processed without a selector, and every
assignment of status-call outcomes, `keepAlive` returns a summary with one result per account,
in order, each carrying the id and name of its account.  An account whose status call was not
answered with a 2xx status (a thrown transport error included) has `success = false` in its own
result and makes the overall `success` false.  An account has `success = true` in its own
result exactly when its own status call went through (`StatusCallOk`: the token renders as
text, the answer is a 2xx, the body is readable JSON, and the e-mail shown renders as text),
whatever happened to the other accounts.  A 2xx answer whose body cannot be read gives
`success = false` for that account and for the run.  The overall `success` is true exactly when
every per-account flag is. -/
theorem keepAlive_partial_failure (host : Host) (w : World) (env : Env) (source : String)
    (hne : parseAccounts host env ≠ [])
    (hnames : ∀ a ∈ parseAccounts host env, a.name.renders = true) :
    ∃ summary, (keepAlive host w env source none).outcome = .ok summary ∧
      summary.results.length = (parseAccounts host env).length ∧
      (∀ (i : Nat) (a : Account), (parseAccounts host env)[i]? = some a →
        ∃ r, summary.results[i]? = some r ∧ r.id = a.id ∧ r.name = a.name ∧
          ((w.account i).api.is2xx = false → r.success = false ∧ summary.success = false) ∧
          (StatusCallOk a (w.account i) → r.success = true) ∧
          (r.success = true ↔ StatusCallOk a (w.account i)) ∧
          (∀ (response : Response) (message : String),
            (w.account i).api = .responded response → response.ok = true →
            response.body = .unreadable message →
            r.success = false ∧ summary.success = false)) ∧
      (summary.success = true ↔ ∀ r ∈ summary.results, r.success = true) := by
  obtain ⟨s2, h1, _, h3, h4⟩ := keepAlive_nonempty host w env source none hne hnames
  simp only [accountsToProcess] at h3 h4
  have hfalse : ∀ (i : Nat) (a : Account),
      (runResults w (parseAccounts host env) 0)[i]? = some (resultOf a (w.account i)) →
      (resultOf a (w.account i)).success = false → s2.allSuccess = false := by
    intro i a hr hf
    simp only [h4]
    rw [List.all_eq_false]
    exact ⟨resultOf a (w.account i), List.getElem?_mem hr, by simp [hf]⟩
  refine ⟨_, by rw [h1], ?_, ?_, ?_⟩
  · simp only [h3, runResults_length]
  · intro i a hi
    have hr := runResults_get w _ 0 i a hi
    simp only [Nat.zero_add] at hr
    refine ⟨_, by simpa [h3] using hr, rfl, rfl, ?_, ?_, ?_, ?_⟩
    · intro h2xx
      have hf : (resultOf a (w.account i)).success = false := checkAccount_not2xx a _ h2xx
      exact ⟨hf, hfalse i a hr hf⟩
    · intro hok
      exact checkAccount_ok a _ hok
    · exact checkAccount_iff a _
    · intro response message g1 _ g3
      have hf : (resultOf a (w.account i)).success = false := by
        have hn := statusCallOk_unreadable a _ response message g1 g3
        have := (checkAccount_iff a (w.account i)).not.2 hn
        simpa [resultOf] using this
      exact ⟨hf, hfalse i a hr hf⟩
  · simp only [h4, h3, List.all_eq_true]

/-- The amended C1 at the two accounts of `listEnv`, the first answered `401`: the second,
answered `200` with a readable profile, succeeds while the run fails; answered `200` with an
unreadable body, it fails. -/
theorem keepAlive_partial_failure_witness :
    (∃ summary r0 r1,
      (keepAlive plainHost sampleWorld listEnv "Manual" none).outcome = .ok summary ∧
      summary.results[0]? = some r0 ∧ summary.results[1]? = some r1 ∧
      r0.success = false ∧ summary.success = false ∧ r1.success = true) ∧
    (∃ summary r1,
      (keepAlive plainHost unreadableWorld listEnv "Manual" none).outcome = .ok summary ∧
      summary.results[1]? = some r1 ∧ r1.success = false ∧ summary.success = false) := by
  constructor
  · obtain ⟨summary, h1, _, h3, _⟩ :=
      keepAlive_partial_failure plainHost sampleWorld listEnv "Manual" (by decide) (by decide)
    obtain ⟨r0, g0, _, _, f0, _⟩ := h3 0
      { id := "acc_1", name := .str "A", token := some (.str "t1"),
        appUrl := .data (.str "https://a.example") } (by decide)
    obtain ⟨r1, g1, _, _, _, f1, _⟩ := h3 1
      { id := "acc_2", name := .str "Account 2", token := some (.str "t2"),
        appUrl := .data .null } (by decide)
    exact ⟨summary, r0, r1, h1, g0, g1, (f0 (by decide)).1, (f0 (by decide)).2,
      f1 ⟨⟨"t2", rfl⟩, _, _, _, _, rfl, rfl, rfl, rfl, rfl⟩⟩
  · obtain ⟨summary, h1, _, h3, _⟩ :=
      keepAlive_partial_failure plainHost unreadableWorld listEnv "Manual" (by decide)
        (by decide)
    obtain ⟨r1, g1, _, _, _, _, _, f1⟩ := h3 1
      { id := "acc_2", name := .str "Account 2", token := some (.str "t2"),
        appUrl := .data .null } (by decide)
    exact ⟨summary, r1, h1, g1, (f1 _ "Unexpected token" rfl rfl rfl).1,
      (f1 _ "Unexpected token" rfl rfl rfl).2⟩

/-- Claim C1 as stated fails: with two accounts, the first answered `401` and the second
`200` with a body that is not JSON, `response.json()` throws inside the `try`, so the second
account, whose status call was a 2xx, is reported with `success = false`. -/
theorem keepAlive_partial_failure_counterexample :
    parseAccounts plainHost listEnv ≠ [] ∧
    (unreadableWorld.account 0).api.is2xx = false ∧
    (unreadableWorld.account 1).api = .responded ⟨200, "OK", .unreadable "Unexpected token"⟩ ∧
    (unreadableWorld.account 1).api.is2xx = true ∧
    (keepAlive plainHost unreadableWorld listEnv "Manual" none).outcome.map
        (fun summary => (summary.success, summary.results.map (fun r => (r.id, r.success)))) =
      .ok (false, [("acc_1", false), ("acc_2", false)]) := by
  decide

/-- Claim C2, as amended (bounded history of `saveLogs`).  Start from a store whose `history`
is absent or a JSON array `xs`, and let the store accept every operation of every save.  After
the saves `calls` the store holds a history `prev`, and after one more save `c` the stored
history (which is what `handleGetLogs` reads back) is the entry of that save, namely the object
with `time` the clock reading of the save, `status` the word `success` or `error` of its flag
and `messages` its log lines, followed by the previous entries in their previous order as
`JSON.stringify` writes them back (a number that is not finite becomes `null`, everything else
is kept), cut to `LOG_LIMIT` elements.  Previous entries that hold no such number are kept
exactly; that is the case of every entry once one save has been made, and from the start when
the initial entries hold none.  The stored length never exceeds `LOG_LIMIT`, it is exactly
`LOG_LIMIT` after more than `LOG_LIMIT` saves, and `LOG_LIMIT` is 50. -/
theorem saveLogs_bounded_history (kv : Kv) (xs : List Json) (calls : List SaveCall)
    (c : SaveCall) (hstart : HoldsHistory kv xs)
    (hworking : ∀ d ∈ calls ++ [c], d.trace.working) :
    ∃ kv1 prev kv2 entry, runSaves calls (some kv) = some kv1 ∧ HoldsHistory kv1 prev ∧
      runSaves (calls ++ [c]) (some kv) = some kv2 ∧
      entry = Json.obj [("time", .str c.trace.time),
                        ("status", .str (if c.status then "success" else "error")),
                        ("messages", .arr (c.newLogs.map Json.str))] ∧
      getHistory false (some kv2) = .arr ((entry :: prev.map Json.storable).take LOG_LIMIT) ∧
      kv2.get "history" =
        some (.json (.arr ((entry :: prev.map Json.storable).take LOG_LIMIT))) ∧
      ((∀ p ∈ prev, p.finite = true) → prev.map Json.storable = prev) ∧
      (calls ≠ [] ∨ (∀ p ∈ xs, p.finite = true) → ∀ p ∈ prev, p.finite = true) ∧
      ((entry :: prev.map Json.storable).take LOG_LIMIT).length ≤ LOG_LIMIT ∧
      (LOG_LIMIT < (calls ++ [c]).length →
        ((entry :: prev.map Json.storable).take LOG_LIMIT).length = LOG_LIMIT) ∧
      LOG_LIMIT = 50 := by
  obtain ⟨kv1, prev, h1, h2, h3, h4⟩ := runSaves_holds calls kv xs hstart
    (fun d hd => hworking d (by simp [hd]))
  have hc := saveLogs_working c.trace kv1 prev c.newLogs c.status (hworking c (by simp)) h2
  obtain ⟨kv2, g1, g2⟩ := getHistory_after_save c.trace kv1 prev c.newLogs c.status
    (hworking c (by simp)) h2
  have hkv2 : kv2 = (kv1.put "history"
      (.json (.arr ((logEntry c.trace.time c.newLogs c.status :: prev.map Json.storable).take
        LOG_LIMIT)))).put "last_run" (.plain c.trace.lastRun) := by
    rw [hc] at g1
    exact (Option.some.inj g1).symm
  refine ⟨kv1, prev, kv2, _, h1, h2, ?_, rfl, g2, ?_, map_storable_of_finite prev, ?_, ?_, ?_,
    rfl⟩
  · simp only [runSaves, List.foldl_append, List.foldl_cons, List.foldl_nil] at h1 ⊢
    rw [h1]; exact g1
  · rw [hkv2, Kv.get_put_other _ _ _ _ (by decide), Kv.get_put_same]
    rfl
  · intro hx p hp
    refine finite_of_storable_fixed p (h4 ?_ p hp)
    rcases hx with hx | hx
    · exact Or.inl hx
    · exact Or.inr (fun q hq => storable_of_finite q (hx q hq))
  · simp [List.length_take]
  · intro hN
    simp only [List.length_take, List.length_cons, List.length_append, List.length_nil,
      List.length_map] at h3 hN ⊢
    omega

/-- The amended C2 at fifty-one saves into an empty store. -/
theorem saveLogs_bounded_history_witness :
    ∃ kv2 ys, runSaves (List.replicate 50 sampleCall ++ [sampleCall]) (some ⟨[]⟩) = some kv2 ∧
      getHistory false (some kv2) = .arr ys ∧
      ys.head? = some (.obj [("time", .str "2024-01-01T00:00:00.000Z"),
        ("status", .str "success"), ("messages", .arr [.str "run"])]) ∧
      ys.length = 50 := by
  obtain ⟨kv1, prev, kv2, entry, _, _, h3, he, h4, _, _, _, _, h8, h9⟩ :=
    saveLogs_bounded_history ⟨[]⟩ [] (List.replicate 50 sampleCall) sampleCall
      (by decide)
      (by
        intro d hd
        have : d = sampleCall := by
          rcases List.mem_append.1 hd with h | h
          · exact List.eq_of_mem_replicate h
          · simpa using h
        rw [this]; decide)
  refine ⟨kv2, _, h3, h4, ?_, by rw [h8 (by simp [LOG_LIMIT]), h9]⟩
  simp [he, LOG_LIMIT, sampleCall, sampleSave]

/-- Claim C2 as stated fails: the stored history is the JSON text `[1e400]`, a valid array whose
one entry is the number `Infinity`; after one save on a working store the history is the new
entry followed by `null`, not followed by the previous entry. -/
theorem saveLogs_bounded_history_counterexample :
    HoldsHistory overflowStore [.num "Infinity"] ∧
    getHistory false (some overflowStore) = .arr [.num "Infinity"] ∧
    sampleSave.working ∧
    getHistory false (saveLogs sampleSave (some overflowStore) ["run"] true) =
      .arr [.obj [("time", .str "2024-01-01T00:00:00.000Z"), ("status", .str "success"),
                  ("messages", .arr [.str "run"])],
            .null] ∧
    getHistory false (saveLogs sampleSave (some overflowStore) ["run"] true) ≠
      .arr [.obj [("time", .str "2024-01-01T00:00:00.000Z"), ("status", .str "success"),
                  ("messages", .arr [.str "run"])],
            .num "Infinity"] := by
  decide

/-- Claim C3, as amended (merge of `KOYEB_APP_URLS` in `parseAccounts`).  Let the map be a
JSON object.  The merge keeps the number, order, id, name and token of the configured accounts,
and (ii) an account that already has an application URL is left exactly as configured.  For an
account whose name renders as text (`key` is that text; for a string it is the name itself),
the names of the accounts before it in the list rendering as text too: (i) if it has no
application URL and the map has an own entry for its name whose value is truthy, the URL
becomes that value; (iii) if the map has no own entry for its name and the name is not one of
the property names inherited from `Object.prototype`, the account is unchanged; and an entry
whose value is falsy (the empty string, `null`, ...) leaves the account unchanged as well. -/
theorem parseAccounts_appUrl_merge (host : Host) (env : Env) (kvs : List (String × Json))
    (accounts : List Account)
    (hmap : env.KOYEB_APP_URLS = some (.json (.obj kvs)))
    (haccounts : configuredAccounts env = .ok accounts) :
    (parseAccounts host env).length = accounts.length ∧
    (∀ (i : Nat) (a : Account), accounts[i]? = some a →
      ∃ b, (parseAccounts host env)[i]? = some b ∧
        b.id = a.id ∧ b.name = a.name ∧ b.token = a.token ∧
        (a.appUrl.truthy = true → b = a)) ∧
    (∀ (i : Nat) (a : Account) (key : String), accounts[i]? = some a →
      a.name.toStr = .ok key →
      (∀ (j : Nat) (c : Account), j < i → accounts[j]? = some c → c.name.renders = true) →
      ∃ b, (parseAccounts host env)[i]? = some b ∧
        (∀ v, a.appUrl.truthy = false → getOwn kvs key = some v → v.truthy = true →
          b.appUrl = .data v) ∧
        (getOwn kvs key = none → key ∉ objectPrototypeKeys → b = a) ∧
        (∀ v, getOwn kvs key = some v → v.truthy = false → b = a)) := by
  have hp : parseAccounts host env = mergeAppUrls host (.obj kvs) accounts := by
    unfold parseAccounts
    simp [haccounts, hmap, truthyText, Text.truthy, JSON.parse]
  rw [hp]
  refine ⟨mergeAppUrls_length _ _ _, ?_, ?_⟩
  · intro i a hi
    obtain ⟨b, hb, e1, e2, e3⟩ := mergeAppUrls_get host (.obj kvs) accounts i a hi
    refine ⟨b, hb, e1, e2, e3, ?_⟩
    intro ht
    have := mergeAppUrls_keeps host (.obj kvs) accounts i a hi ht
    rw [hb] at this
    exact Option.some.inj this
  · intro i a key hi hkey hbefore
    have hupto : ∀ (j : Nat) (c : Account), j ≤ i → accounts[j]? = some c →
        c.name.renders = true := by
      intro j c hj hc
      rcases Nat.lt_or_eq_of_le hj with hlt | heq
      · exact hbefore j c hlt hc
      · subst heq
        rw [hi] at hc
        cases hc
        simp [Json.renders, hkey]
    obtain ⟨b, hb, hm⟩ := mergeAppUrls_obj_upto host kvs accounts i a hupto hi
    obtain ⟨b2, hb2, r1, _, r3, r4⟩ := mergeAccount_obj host kvs a key hkey
    rw [hm] at hb2
    cases hb2
    exact ⟨b, hb, r1, r3, r4⟩

/-- The amended C3 at three accounts and a map with entries for the first two. -/
theorem parseAccounts_appUrl_merge_witness :
    (parseAccounts plainHost mergeEnv).length = 3 ∧
    (∃ b, (parseAccounts plainHost mergeEnv)[0]? = some b ∧
      b.appUrl = .data (.str "https://a.example")) ∧
    (∃ b, (parseAccounts plainHost mergeEnv)[1]? = some b ∧
      b.appUrl = .data (.str "https://b.example")) ∧
    (∃ b, (parseAccounts plainHost mergeEnv)[2]? = some b ∧ b.appUrl = .data .null) := by
  have h := parseAccounts_appUrl_merge plainHost mergeEnv
    [("A", .str "https://a.example"), ("B", .str "https://other.example")]
    [{ id := "acc_1", name := .str "A", token := some (.str "t1"), appUrl := .data .null },
     { id := "acc_2", name := .str "B", token := some (.str "t2"),
       appUrl := .data (.str "https://b.example") },
     { id := "acc_3", name := .str "C", token := some (.str "t3"), appUrl := .data .null }]
    rfl (by decide)
  refine ⟨h.1, ?_, ?_, ?_⟩
  · obtain ⟨b, hb, r1, _⟩ := h.2.2 0
      { id := "acc_1", name := .str "A", token := some (.str "t1"), appUrl := .data .null }
      "A" rfl rfl (by intro j c hj; omega)
    exact ⟨b, hb, r1 _ rfl rfl rfl⟩
  · obtain ⟨b, hb, _, _, _, r2⟩ := h.2.1 1
      { id := "acc_2", name := .str "B", token := some (.str "t2"),
        appUrl := .data (.str "https://b.example") } rfl
    exact ⟨b, hb, by rw [r2 rfl]⟩
  · obtain ⟨b, hb, _, r3, _⟩ := h.2.2 2
      { id := "acc_3", name := .str "C", token := some (.str "t3"), appUrl := .data .null }
      "C" rfl rfl
      (by
        intro j c hj hc
        interval_cases j <;> simp only [List.getElem?_cons_zero, List.getElem?_cons_succ,
          Option.some.injEq] at hc <;> subst hc <;> rfl)
    exact ⟨b, hb, by rw [r3 rfl (by decide)]⟩

/-- Claim C3 as stated fails: the account `A` has no application URL and the map contains the
entry `A` with the empty string as value, yet the resolved `appUrl` is `null`, not the mapped
value, because line 82 asks for a truthy map value. -/
theorem parseAccounts_appUrl_merge_counterexample :
    configuredAccounts emptyUrlEnv =
      .ok [{ id := "acc_1", name := .str "A", token := some (.str "t1"),
             appUrl := .data .null }] ∧
    emptyUrlEnv.KOYEB_APP_URLS = some (.json (.obj [("A", .str "")])) ∧
    getOwn [("A", .str "")] "A" = some (.str "") ∧
    (parseAccounts plainHost emptyUrlEnv).map (fun a => a.appUrl) = [.data .null] ∧
    (parseAccounts plainHost emptyUrlEnv).map (fun a => a.appUrl) ≠ [.data (.str "")] := by
  decide

/-- Claim C4, as amended (list form of `parseAccounts`).  When `KOYEB_TOKENS` parses to a
non-empty array of objects, there is one account per entry, in array order, both before and
after the name-to-URL merge, and the merge keeps id, name and token.  The account at 0-based
position `i` has id `acc_` followed by the decimal of `i + 1`; its token is the entry's `token`
property verbatim (`none`, that is `undefined`, when missing); its name is the entry's `name`
when that is truthy and `Account ` followed by `i + 1` when the name is absent or falsy (the
empty string for one); its application URL before the merge is the entry's `appUrl` when that
is truthy and `null` when it is absent or falsy. -/
theorem parseAccounts_list_form (host : Host) (env : Env) (entries : List Json)
    (htokens : env.KOYEB_TOKENS = some (.json (.arr entries))) (hne : entries ≠ [])
    (hobj : ∀ e ∈ entries, e.isObject = true) :
    ∃ accounts, configuredAccounts env = .ok accounts ∧
      accounts.length = entries.length ∧ (parseAccounts host env).length = entries.length ∧
      ∀ (i : Nat) (fields : List (String × Json)), entries[i]? = some (.obj fields) →
        ∃ a b, accounts[i]? = some a ∧ (parseAccounts host env)[i]? = some b ∧
          b.id = a.id ∧ b.name = a.name ∧ b.token = a.token ∧
          a.id = "acc_" ++ toString (i + 1) ∧
          a.token = getOwn fields "token" ∧
          (∀ v, getOwn fields "name" = some v → v.truthy = true → a.name = v) ∧
          ((∀ v, getOwn fields "name" = some v → v.truthy = false) →
            a.name = .str ("Account " ++ toString (i + 1))) ∧
          (∀ v, getOwn fields "appUrl" = some v → v.truthy = true → a.appUrl = .data v) ∧
          ((∀ v, getOwn fields "appUrl" = some v → v.truthy = false) →
            a.appUrl = .data .null) := by
  obtain ⟨accounts, h1, h2, h3⟩ := mapEntries_objects entries 0 hobj
  have hlen : accounts.length ≠ 0 := by
    rw [h2]; exact fun h => hne (List.length_eq_zero.1 h)
  have hconf : configuredAccounts env = .ok accounts := by
    unfold configuredAccounts accountsFromTokens
    simp only [htokens, truthyText, Text.truthy, JSON.parse, h1]
    simp [hlen]
  obtain ⟨p1, p2⟩ := parseAccounts_of_configured host env accounts hconf
  refine ⟨accounts, hconf, h2, by rw [p1, h2], ?_⟩
  intro i fields hi
  have ha := h3 i fields hi
  obtain ⟨b, hb, e1, e2, e3⟩ := p2 i _ ha
  simp only [Nat.zero_add] at ha e1 e2 e3 ⊢
  exact ⟨_, b, ha, hb, e1, e2, e3, rfl, rfl,
    fun v hv ht => orElse_truthy _ _ v hv ht, fun h => orElse_falsy _ _ h,
    fun v hv ht => by rw [orElse_truthy _ _ v hv ht], fun h => by rw [orElse_falsy _ _ h]⟩

/-- The amended C4 at the two entries of `listEnv`. -/
theorem parseAccounts_list_form_witness :
    parseAccounts plainHost listEnv =
      [{ id := "acc_1", name := .str "A", token := some (.str "t1"),
         appUrl := .data (.str "https://a.example") },
       { id := "acc_2", name := .str "Account 2", token := some (.str "t2"),
         appUrl := .data .null }] ∧
    ∃ accounts, configuredAccounts listEnv = .ok accounts ∧ accounts.length = 2 := by
  obtain ⟨accounts, h1, h2, _, _⟩ := parseAccounts_list_form plainHost listEnv _ rfl (by decide)
    (by decide)
  exact ⟨by decide, accounts, h1, h2⟩

/-- Claim C4 as stated fails: an entry whose `name` and `appUrl` are present and equal to the
empty string resolves to the name `Account 1` and the application URL `null`, because lines 60
and 62 use `||`. -/
theorem parseAccounts_list_form_counterexample :
    emptyNameEnv.KOYEB_TOKENS =
      some (.json (.arr [.obj [("name", .str ""), ("token", .str "t1"), ("appUrl", .str "")]])) ∧
    getOwn [("name", .str ""), ("token", .str "t1"), ("appUrl", .str "")] "name"
      = some (.str "") ∧
    getOwn [("name", .str ""), ("token", .str "t1"), ("appUrl", .str "")] "appUrl"
      = some (.str "") ∧
    configuredAccounts emptyNameEnv =
      .ok [{ id := "acc_1", name := .str "Account 1", token := some (.str "t1"),
             appUrl := .data .null }] ∧
    (parseAccounts plainHost emptyNameEnv).map (fun a => a.name) = [.str "Account 1"] ∧
    (parseAccounts plainHost emptyNameEnv).map (fun a => a.name) ≠ [.str ""] ∧
    (parseAccounts plainHost emptyNameEnv).map (fun a => a.appUrl) ≠ [.data (.str "")] := by
  decide

/-- Claim C5 (the application ping never interferes).  For every account list, selector and
assignment of status-call outcomes, replacing the outcomes of the application pings (status
codes, thrown errors, durations) by any others leaves unchanged what the run reports: the same
overall `success`, the same number of results, and the same id, name and `success` in each
result; and a run that ends in an exception does so in both cases with the same exception, so
no ping outcome aborts the loop. -/
theorem keepAlive_probe_independent (host : Host) (w : World) (probes : Nat → ProbeOutcome)
    (pings : Nat → Int) (env : Env) (source : String) (specificAccountId : Option String) :
    (keepAlive host (w.withProbes probes pings) env source specificAccountId).view =
      (keepAlive host w env source specificAccountId).view := by
  unfold keepAlive
  simp only
  split
  · rfl
  · obtain ⟨h1, h2, h3⟩ := processAccounts_withProbes host w probes pings
      (accountsToProcess (parseAccounts host env) specificAccountId) 0
      { logs := headerLines (w.withProbes probes pings).timestamp source
          (parseAccounts host env).length,
        results := [], allSuccess := true, store := env.LOG_KV }
      { logs := headerLines w.timestamp source (parseAccounts host env).length,
        results := [], allSuccess := true, store := env.LOG_KV } rfl rfl
    revert h1 h2 h3
    generalize processAccounts host (w.withProbes probes pings) _ 0 _ = r1
    generalize processAccounts host w _ 0 _ = r2
    obtain ⟨e1, s1⟩ := r1
    obtain ⟨e2, s2⟩ := r2
    intro h1 h2 h3
    simp only at h1 h2 h3
    subst h1
    cases e1 with
    | some e => rfl
    | none => simp only [Run.view, h2, h3]

/-- Claim C6 (the store never interferes).  For every configuration, selector and assignment of
remote-call outcomes, the outcome of `keepAlive` (the whole summary: `success`, `logs` and
`results`) is the same whatever is bound as `LOG_KV` (nothing, or a store with any contents,
unparsable ones included) and however the store behaves (any of its reads and writes may
reject).  In particular the run with no store bound returns the same summary, and leaves no
store behind. -/
theorem keepAlive_store_independent (host : Host) (w : World) (status : Nat → StatusTrace)
    (lastRuns : Nat → String) (save : SaveTrace) (env : Env) (kv : Option Kv) (source : String)
    (specificAccountId : Option String) :
    (keepAlive host (w.withStore status lastRuns save) { env with LOG_KV := kv } source
        specificAccountId).outcome
      = (keepAlive host w env source specificAccountId).outcome ∧
    (keepAlive host w { env with LOG_KV := none } source specificAccountId).outcome
      = (keepAlive host w env source specificAccountId).outcome ∧
    (keepAlive host w { env with LOG_KV := none } source specificAccountId).store = none := by
  have key : ∀ (w2 : World) (status : Nat → StatusTrace) (lastRuns : Nat → String)
      (save : SaveTrace) (kv : Option Kv),
      (keepAlive host (w2.withStore status lastRuns save) { env with LOG_KV := kv } source
        specificAccountId).outcome = (keepAlive host w2 env source specificAccountId).outcome := by
    intro w2 status lastRuns save kv
    unfold keepAlive
    simp only [parseAccounts_store]
    split
    · rfl
    · obtain ⟨h1, h2, h3, h4⟩ := processAccounts_withStore host w2 status lastRuns save
        (accountsToProcess (parseAccounts host env) specificAccountId) 0
        { logs := headerLines (w2.withStore status lastRuns save).timestamp source
            (parseAccounts host env).length,
          results := [], allSuccess := true, store := kv }
        { logs := headerLines w2.timestamp source (parseAccounts host env).length,
          results := [], allSuccess := true, store := env.LOG_KV } rfl rfl rfl
      revert h1 h2 h3 h4
      generalize processAccounts host (w2.withStore status lastRuns save) _ 0 _ = r1
      generalize processAccounts host w2 _ 0 _ = r2
      obtain ⟨e1, s1⟩ := r1
      obtain ⟨e2, s2⟩ := r2
      intro h1 h2 h3 h4
      simp only at h1 h2 h3 h4
      subst h1
      cases e1 with
      | some e => rfl
      | none => simp only [h2, h3, h4]
  refine ⟨key w status lastRuns save kv, ?_, ?_⟩
  · have := key w (fun i => (w.account i).status) (fun i => (w.account i).lastRun) w.save none
    exact this
  · unfold keepAlive
    simp only [parseAccounts_store]
    split
    · rfl
    · have := processAccounts_unbound host w
        (accountsToProcess (parseAccounts host env) specificAccountId) 0
        { logs := headerLines w.timestamp source (parseAccounts host env).length,
          results := [], allSuccess := true, store := none } rfl
      revert this
      generalize processAccounts host w _ 0 _ = r
      obtain ⟨e, s⟩ := r
      intro h
      simp only at h
      cases e with
      | some e => exact h
      | none => simp only [h]; rfl

/-- Claim C7 (store writes on malformed persisted data) fails in the code.  At a store whose
`history` and `account_status` hold text that is not JSON, the read paths fall back to the
empty history and the empty map, but the write paths do not: `saveLogs` on a working store
leaves the store as it is (the history stays malformed and `last_run` is not written), whereas
without the `history` key it writes the one-entry history and `last_run`; and
`updateAccountStatus` leaves the malformed `account_status` as it is, whereas without the key it
writes the map with the record of the account. -/
theorem malformed_store_writes_skipped :
    malformedStore.get "history" = some (.plain "not json") ∧
    malformedStore.get ACCOUNT_STATUS_KEY = some (.plain "not json") ∧
    JSON.parse (.plain "not json") = .error ⟨"SyntaxError", "Unexpected token in JSON"⟩ ∧
    getHistory false (some malformedStore) = .arr [] ∧
    getAccountStatus false (some malformedStore) = .obj [] ∧
    sampleSave.working ∧
    saveLogs sampleSave (some malformedStore) ["run"] true = some malformedStore ∧
    (saveLogs sampleSave (some malformedStore) ["run"] true).map
        (fun kv => (kv.get "history", kv.get "last_run")) =
      some (some (.plain "not json"), none) ∧
    (saveLogs sampleSave (some ⟨[("account_status", .plain "not json")]⟩) ["run"] true).map
        (fun kv => (kv.get "history", kv.get "last_run")) =
      some (some (.json (.arr [.obj [("time", .str "2024-01-01T00:00:00.000Z"),
              ("status", .str "success"), ("messages", .arr [.str "run"])]])),
            some (.plain "2024-01-01T00:00:00.001Z")) ∧
    updateAccountStatus plainHost sampleStatus (some malformedStore) "acc_1"
        (.obj [("name", .str "A")]) = some malformedStore ∧
    (updateAccountStatus plainHost sampleStatus (some ⟨[("history", .plain "not json")]⟩) "acc_1"
        (.obj [("name", .str "A")])).map (fun kv => kv.get ACCOUNT_STATUS_KEY) =
      some (some (.json (.obj [("acc_1",
        .obj [("name", .str "A"), ("updatedAt", .str "2024-01-01T00:00:00.002Z")])]))) := by
  decide

/-- Claim C8 (empty configuration) fails in the code where it speaks of the history.  With no
account configured and a bound store that accepts every operation and whose `history` holds
text that is not JSON, `keepAlive` returns the failed summary with the two header lines and the
no-accounts line, and persists nothing: the store is left as it is and the history read back is
empty. -/
theorem keepAlive_no_accounts_malformed_history :
    parseAccounts plainHost malformedHistoryEnv = [] ∧
    malformedHistoryEnv.LOG_KV = some malformedStore ∧
    sampleWorld.save.working ∧
    keepAlive plainHost sampleWorld malformedHistoryEnv "Cron Scheduled" none =
      { outcome := .ok
          { success := false,
            logs := ["[2024-01-01T00:00:00.000Z] 🚀 多账户保活任务开始 (来源: Cron Scheduled)",
                     "[2024-01-01T00:00:00.000Z] 📊 发现 0 个账户",
                     "[2024-01-01T00:00:00.000Z] ❌ 错误: 未配置任何 Koyeb 账户。请设置 KOYEB_TOKENS 环境变量。"],
            results := [] },
        store := some malformedStore } ∧
    getHistory false
      (keepAlive plainHost sampleWorld malformedHistoryEnv "Cron Scheduled" none).store =
        .arr [] := by
  decide

/-- Claim C9 (selector filtering) fails in the code.  With two configured accounts, the second
named by an object with an own `toString` property, and the selector `acc_2`, the log line of
line 123 throws outside every `try`: `keepAlive` rejects with a `TypeError` and returns no
results. -/
theorem keepAlive_selector_object_name :
    (parseAccounts plainHost objectNameEnv).map (fun a => (a.id, a.name)) =
      [("acc_1", .str "A"), ("acc_2", .obj [("toString", .num "1")])] ∧
    (keepAlive plainHost sampleWorld objectNameEnv "Single Account Trigger"
        (some "acc_2")).outcome =
      .error ⟨"TypeError", "Cannot convert object to primitive value"⟩ := by
  decide

/-- Claim C10, as amended (parse failures in `parseAccounts`).  When `KOYEB_TOKENS` holds a
non-empty text that is not JSON, `parseAccounts` returns the empty list whatever the other
settings hold, a legacy `KOYEB_TOKEN` included.  When `KOYEB_APP_URLS` holds text that is not
JSON, the inner `catch` only skips the merge: `parseAccounts` returns the accounts configured
by `KOYEB_TOKENS` or `KOYEB_TOKEN` unchanged.  In both cases `parseAccounts` returns a list
(it does not throw). -/
theorem parseAccounts_parse_failures (host : Host) (env : Env) (s : String) :
    (env.KOYEB_TOKENS = some (.plain s) → s ≠ "" → parseAccounts host env = []) ∧
    (env.KOYEB_APP_URLS = some (.plain s) →
      parseAccounts host env =
        (match configuredAccounts env with
         | .ok accounts => accounts
         | .error _ => [])) := by
  constructor
  · intro h hs
    have : configuredAccounts env = .error ⟨"SyntaxError", "Unexpected token in JSON"⟩ := by
      unfold configuredAccounts accountsFromTokens
      simp [h, truthyText, Text.truthy, hs, JSON.parse]
    exact parseAccounts_of_error host env _ this
  · intro h
    unfold parseAccounts
    cases configuredAccounts env with
    | error e => rfl
    | ok accounts =>
      simp only [h, truthyText, Text.truthy, JSON.parse]
      split <;> rfl

/-- The amended C10 at a malformed `KOYEB_TOKENS` next to a legacy token, and at a
malformed `KOYEB_APP_URLS` next to a valid list form. -/
theorem parseAccounts_parse_failures_witness :
    parseAccounts plainHost badTokensEnv = [] ∧
    parseAccounts plainHost badUrlsEnv =
      (match configuredAccounts badUrlsEnv with
       | .ok accounts => accounts
       | .error _ => []) :=
  ⟨(parseAccounts_parse_failures plainHost badTokensEnv "not json").1 rfl (by decide),
   (parseAccounts_parse_failures plainHost badUrlsEnv "not json").2 rfl⟩

/-- Claim C10 as stated fails: `KOYEB_APP_URLS` fails to parse, and `parseAccounts` still
returns the account configured in `KOYEB_TOKENS`, not the empty list. -/
theorem parseAccounts_parse_failures_counterexample :
    badUrlsEnv.KOYEB_APP_URLS = some (.plain "not json") ∧
    JSON.parse (.plain "not json") = .error ⟨"SyntaxError", "Unexpected token in JSON"⟩ ∧
    parseAccounts plainHost badUrlsEnv =
      [{ id := "acc_1", name := .str "A", token := some (.str "t1"), appUrl := .data .null }] ∧
    parseAccounts plainHost badUrlsEnv ≠ [] := by
  decide

/-- Claim C11, as amended (legacy fallback of `parseAccounts`).  When the list form
contributes no account (`KOYEB_TOKENS` is missing or empty, or parses to the empty array) and
`KOYEB_TOKEN` is a non-empty string, the result is exactly one account with id `acc_1`, name
`Default Account` and token equal to `KOYEB_TOKEN`; its application URL before the name-to-URL
merge is `KOYEB_APP_URL` when that is a non-empty string and `null` when it is missing or empty.
When `KOYEB_TOKEN` is missing or empty too, the result is the empty list.  When the list form
yields at least one account, the fallback is not used: the accounts are those of the list
form. -/
theorem parseAccounts_legacy_fallback (host : Host) (env : Env) :
    (ListFormEmpty env →
      (∀ token, env.KOYEB_TOKEN = some token → token ≠ "" →
        ∃ a b, configuredAccounts env = .ok [a] ∧ parseAccounts host env = [b] ∧
          b.id = a.id ∧ b.name = a.name ∧ b.token = a.token ∧
          a.id = "acc_1" ∧ a.name = .str "Default Account" ∧ a.token = some (.str token) ∧
          (∀ url, env.KOYEB_APP_URL = some url → url ≠ "" → a.appUrl = .data (.str url)) ∧
          (env.KOYEB_APP_URL = none ∨ env.KOYEB_APP_URL = some "" → a.appUrl = .data .null)) ∧
      (env.KOYEB_TOKEN = none ∨ env.KOYEB_TOKEN = some "" → parseAccounts host env = [])) ∧
    (∀ accounts, accountsFromTokens env = .ok accounts → accounts ≠ [] →
      configuredAccounts env = .ok accounts ∧
      (parseAccounts host env).length = accounts.length) := by
  refine ⟨fun hlist => ⟨?_, ?_⟩, ?_⟩
  · intro token ht hne
    have hc : configuredAccounts env = .ok [legacyAccount env] := by
      unfold configuredAccounts
      rw [accountsFromTokens_empty env hlist]
      simp [ht, truthyString, hne]
    obtain ⟨hlen, hget⟩ := parseAccounts_of_configured host env _ hc
    obtain ⟨b, hb, e1, e2, e3⟩ := hget 0 (legacyAccount env) (by simp)
    have hp : parseAccounts host env = [b] := by
      cases hl : parseAccounts host env with
      | nil => rw [hl] at hlen; simp at hlen
      | cons x rest =>
        rw [hl] at hlen hb
        simp only [List.length_cons, List.length_nil, Nat.zero_add, Nat.add_left_eq_self,
          List.length_eq_zero] at hlen
        simp only [List.getElem?_cons_zero, Option.some.injEq] at hb
        rw [hlen, hb]
    obtain ⟨u1, u2⟩ := legacyAccount_appUrl env
    exact ⟨legacyAccount env, b, hc, hp, e1, e2, e3, rfl, rfl, by simp [legacyAccount, ht],
      u1, u2⟩
  · intro ht
    have hc : configuredAccounts env = .ok [] := by
      unfold configuredAccounts
      rw [accountsFromTokens_empty env hlist]
      rcases ht with ht | ht <;> simp [ht, truthyString]
    have := (parseAccounts_of_configured host env _ hc).1
    exact List.length_eq_zero.1 this
  · intro accounts ha hne
    have hc : configuredAccounts env = .ok accounts := by
      unfold configuredAccounts
      rw [ha]
      have : ¬ accounts.length = 0 := fun h => hne (List.length_eq_zero.1 h)
      simp [this]
    exact ⟨hc, (parseAccounts_of_configured host env _ hc).1⟩

/-- The amended C11 at an environment with only the legacy settings, at one without any
setting, and at the two-account list form. -/
theorem parseAccounts_legacy_fallback_witness :
    (∃ b, parseAccounts plainHost legacyEnv = [b] ∧ b.id = "acc_1" ∧
      b.name = .str "Default Account" ∧ b.token = some (.str "legacy-token")) ∧
    parseAccounts plainHost noAccountsEnv = [] ∧
    configuredAccounts listEnv = accountsFromTokens listEnv := by
  refine ⟨?_, ?_, ?_⟩
  · obtain ⟨a, b, _, hp, e1, e2, e3, a1, a2, a3, _⟩ :=
      ((parseAccounts_legacy_fallback plainHost legacyEnv).1 (by decide)).1 "legacy-token" rfl
        (by decide)
    exact ⟨b, hp, by rw [e1, a1], by rw [e2, a2], by rw [e3, a3]⟩
  · exact ((parseAccounts_legacy_fallback plainHost noAccountsEnv).1 (by decide)).2
      (Or.inl rfl)
  · have := ((parseAccounts_legacy_fallback plainHost listEnv).2
      [{ id := "acc_1", name := .str "A", token := some (.str "t1"),
         appUrl := .data (.str "https://a.example") },
       { id := "acc_2", name := .str "Account 2", token := some (.str "t2"),
         appUrl := .data .null }] (by decide) (by decide)).1
    rw [this]; decide

/-- Claim C11 as stated fails: with no list form and a `KOYEB_TOKEN` that is present and
empty, line 68 finds the token falsy and the result is the empty list, not one account; and a
`KOYEB_APP_URL` that is present and empty gives the application URL `null`, not its value. -/
theorem parseAccounts_legacy_fallback_counterexample :
    emptyTokenEnv.KOYEB_TOKENS = none ∧ emptyTokenEnv.KOYEB_TOKEN = some "" ∧
    parseAccounts plainHost emptyTokenEnv = [] ∧
    emptyLegacyUrlEnv.KOYEB_TOKENS = some (.json (.arr [])) ∧
    emptyLegacyUrlEnv.KOYEB_APP_URL = some "" ∧
    parseAccounts plainHost emptyLegacyUrlEnv =
      [{ id := "acc_1", name := .str "Default Account", token := some (.str "legacy-token"),
         appUrl := .data .null }] ∧
    (parseAccounts plainHost emptyLegacyUrlEnv).map (fun a => a.appUrl) ≠ [.data (.str "")] := by
  decide

/-- Claim C12 (ids are unique).  For every environment the ids of the accounts `parseAccounts`
returns are pairwise distinct, and the account at 0-based position `i` has id `acc_` followed by
the decimal representation of `i + 1`.  Names may repeat: the two accounts of `sameNameEnv` have
distinct ids and the same name. -/
theorem parseAccounts_ids_distinct (host : Host) (env : Env) :
    ((parseAccounts host env).map (fun a => a.id)).Nodup ∧
    (∀ (i : Nat) (a : Account), (parseAccounts host env)[i]? = some a →
      a.id = "acc_" ++ toString (i + 1)) ∧
    (∀ (i j : Nat) (a b : Account), (parseAccounts host env)[i]? = some a →
      (parseAccounts host env)[j]? = some b → a.id = b.id → i = j) ∧
    (parseAccounts host sameNameEnv).map (fun a => (a.id, a.name)) =
      [("acc_1", .str "A"), ("acc_2", .str "A")] := by
  have hids := parseAccounts_ids host env
  have hinj : ∀ (i j : Nat) (a b : Account), (parseAccounts host env)[i]? = some a →
      (parseAccounts host env)[j]? = some b → a.id = b.id → i = j := by
    intro i j a b ha hb hab
    rw [hids i a ha, hids j b hb] at hab
    exact accountId_injective i j hab
  refine ⟨?_, hids, hinj, rfl⟩
  rw [List.nodup_iff_getElem?_ne_getElem?]
  intro i j hij hj
  simp only [List.length_map] at hj
  have hi : i < (parseAccounts host env).length := by omega
  simp only [List.getElem?_map, List.getElem?_eq_getElem hi, List.getElem?_eq_getElem hj,
    Option.map_some', ne_eq, Option.some.injEq]
  intro heq
  have := hinj i j _ _ (List.getElem?_eq_getElem hi) (List.getElem?_eq_getElem hj) heq
  omega

/-- The statement of C12 at the two accounts of `listEnv`. -/
theorem parseAccounts_ids_distinct_witness :
    ((parseAccounts plainHost listEnv).map (fun a => a.id)).Nodup ∧
    (parseAccounts plainHost listEnv).map (fun a => a.id) = ["acc_1", "acc_2"] ∧
    ∀ (j : Nat) (b : Account), (parseAccounts plainHost listEnv)[j]? = some b →
      b.id = "acc_2" → 1 = j :=
  ⟨(parseAccounts_ids_distinct plainHost listEnv).1, by decide,
   fun j b hb hid => (parseAccounts_ids_distinct plainHost listEnv).2.2.1 1 j
     { id := "acc_2", name := .str "Account 2", token := some (.str "t2"),
       appUrl := .data .null } b (by decide) hb hid.symm⟩

/-- Claim C13 (order of `results`) fails in the code.  With two configured accounts, the second
named by an object with an own `toString` property, and no selector, the resolved list has two
accounts, yet `keepAlive` rejects with a `TypeError` at the log line of line 123 and returns no
results; nothing is saved. -/
theorem keepAlive_results_object_name :
    (parseAccounts plainHost objectNameEnv).length = 2 ∧
    (keepAlive plainHost sampleWorld objectNameEnv "Cron Scheduled" none).outcome =
      .error ⟨"TypeError", "Cannot convert object to primitive value"⟩ ∧
    (keepAlive plainHost sampleWorld objectNameEnv "Cron Scheduled" none).store = none := by
  decide

/-- Claim C14, as amended (shallow merge and frame of `updateAccountStatus`).  Let the stored
status map be absent or a JSON object `m`, let the store accept the read and the write, let the
account id be any string but `__proto__` (which a plain object does not store as a property),
let the partial record be a JSON object with the fields `fields`, and let the previous record
of the account be absent or a JSON object with the fields `pfields`.  After the call the status
map read back has, under the account id, a record with `updatedAt` equal to the fresh stamp,
whatever the partial or the previous record say; with every other field the partial record
supplies at the partial record's value as `JSON.stringify` writes it (a number that is not
finite becomes `null`, a value that holds none is kept exactly); and with every field the
partial record does not supply at the value of the previous record as written back (absent when
there was none).  The record of every other account id is the previous one as written back,
and no key of the store other than `account_status` is changed. -/
theorem updateAccountStatus_shallow_merge (host : Host) (x : StatusTrace) (kv : Kv)
    (m fields pfields : List (String × Json)) (accountId : String)
    (hmap : HoldsStatusMap kv m) (hget : x.getFails = false) (hput : x.putFails = false)
    (hid : accountId ≠ "__proto__")
    (hprev : getOwn m accountId = none ∧ pfields = [] ∨
      getOwn m accountId = some (.obj pfields)) :
    ∃ kv2 m2 record,
      updateAccountStatus host x (some kv) accountId (.obj fields) = some kv2 ∧
      getAccountStatus false (some kv2) = .obj m2 ∧
      getOwn m2 accountId = some (.obj record) ∧
      getOwn record "updatedAt" = some (.str x.updatedAt) ∧
      (∀ k v, k ≠ "updatedAt" → getOwn fields k = some v →
        getOwn record k = some v.storable) ∧
      (∀ k, k ≠ "updatedAt" → getOwn fields k = none →
        getOwn record k = (getOwn pfields k).map Json.storable) ∧
      (∀ id, id ≠ accountId → getOwn m2 id = (getOwn m id).map Json.storable) ∧
      (∀ v : Json, v.finite = true → v.storable = v) ∧
      (∀ key, key ≠ ACCOUNT_STATUS_KEY → kv2.get key = kv.get key) := by
  have hspread : ∀ k, (match getOwn m accountId with
      | some previous => Val.data previous
      | none => Val.undefined).spreadField k = getOwn pfields k := by
    intro k
    rcases hprev with ⟨h, rfl⟩ | h
    · rw [h]; rfl
    · rw [h]; exact spreadField_obj pfields k
  obtain ⟨record, hrec, r1, r2, r3⟩ := mergedRecord_obj pfields fields _ x.updatedAt hspread
  have hmerged : ∀ previous, getProperty host (.obj m) accountId = .ok previous →
      mergedRecord previous (.obj fields) x.updatedAt = .obj record := by
    intro previous hp
    rw [← hrec]
    simp only [getProperty] at hp
    cases hg : getOwn m accountId with
    | some p => rw [hg] at hp; cases hp; rfl
    | none =>
      rw [hg] at hp
      cases hp
      exact mergedRecord_inherited host accountId (.obj fields) x.updatedAt
  have hupd : updateAccountStatus host x (some kv) accountId (.obj fields) =
      some (kv.put ACCOUNT_STATUS_KEY
        (.json (.obj (Json.storableFields (setOwn m accountId (.obj record)))))) := by
    rw [updateAccountStatus_of_map host x kv m accountId (.obj fields) hmap hget]
    cases hp : getProperty host (.obj m) accountId with
    | error e =>
      simp only [getProperty] at hp
      cases hg : getOwn m accountId <;> rw [hg] at hp <;> cases hp
    | ok previous =>
      simp only [hmerged previous hp, assignProperty, hid, if_false, ite_self, hput,
        Bool.false_eq_true, stringify_obj]
  refine ⟨_, Json.storableFields (setOwn m accountId (.obj record)),
    Json.storableFields record, hupd, ?_, ?_, ?_, ?_, ?_, ?_, storable_of_finite,
    fun key h => Kv.get_put_other _ _ _ _ h⟩
  · simp [getAccountStatus, Kv.get_put_same, Text.truthy, JSON.parse]
  · rw [getOwn_storableFields, getOwn_setOwn_same]
    simp [Json.storable]
  · rw [getOwn_storableFields, r1]
    rfl
  · intro k v hk hv
    rw [getOwn_storableFields, r2 k v hk hv]
    rfl
  · intro k hk hv
    rw [getOwn_storableFields, r3 k hk hv]
  · intro id h
    rw [getOwn_storableFields, getOwn_setOwn_other _ _ _ _ h]

/-- The amended C14 at a store with two records: the update of `acc_1` overrides `success` and
`updatedAt`, keeps the stale field `region`, and leaves the record of `acc_2` and the key
`history` alone. -/
theorem updateAccountStatus_shallow_merge_witness :
    ∃ kv2 m2 record,
      updateAccountStatus plainHost sampleStatus (some statusStore) "acc_1"
          (.obj [("name", .str "A"), ("success", .bool false)]) = some kv2 ∧
      getAccountStatus false (some kv2) = .obj m2 ∧
      getOwn m2 "acc_1" = some (.obj record) ∧
      getOwn record "updatedAt" = some (.str "2024-01-01T00:00:00.002Z") ∧
      getOwn record "success" = some (.bool false) ∧
      getOwn record "region" = some (.str "fra") ∧
      getOwn m2 "acc_2" = some (.obj [("name", .str "B"), ("success", .bool true)]) ∧
      kv2.get "history" = some (.json (.arr [])) := by
  obtain ⟨kv2, m2, record, h1, h2, h3, h4, h5, h6, h7, _, h9⟩ :=
    updateAccountStatus_shallow_merge plainHost sampleStatus statusStore
      [("acc_1", .obj [("name", .str "A"), ("success", .bool true), ("region", .str "fra"),
                       ("updatedAt", .str "2023-12-31T00:00:00.000Z")]),
       ("acc_2", .obj [("name", .str "B"), ("success", .bool true)])]
      [("name", .str "A"), ("success", .bool false)]
      [("name", .str "A"), ("success", .bool true), ("region", .str "fra"),
       ("updatedAt", .str "2023-12-31T00:00:00.000Z")]
      "acc_1" (by decide) rfl rfl (by decide) (Or.inr (by decide))
  refine ⟨kv2, m2, record, h1, h2, h3, h4, ?_, ?_, ?_, ?_⟩
  · rw [h5 "success" (.bool false) (by decide) (by decide)]
    rfl
  · rw [h6 "region" (by decide) (by decide)]
    decide
  · rw [h7 "acc_2" (by decide)]
    decide
  · rw [h9 "history" (by decide)]
    decide

/-- Claim C14 as stated fails: the stored record of `acc_2` holds the duration `1e400`, and
after an update of `acc_1` it is read back with `null` in its place; and a partial record whose
`name` is the number `1e400` is stored with the name `null`. -/
theorem updateAccountStatus_shallow_merge_counterexample :
    HoldsStatusMap overflowStatusStore
      [("acc_2", .obj [("name", .str "B"), ("lastDuration", .num "Infinity")])] ∧
    getAccountStatus false (some overflowStatusStore) =
      .obj [("acc_2", .obj [("name", .str "B"), ("lastDuration", .num "Infinity")])] ∧
    getAccountStatus false
        (updateAccountStatus plainHost sampleStatus (some overflowStatusStore) "acc_1"
          (.obj [("name", .str "A"), ("success", .bool true)])) =
      .obj [("acc_2", .obj [("name", .str "B"), ("lastDuration", .null)]),
            ("acc_1", .obj [("name", .str "A"), ("success", .bool true),
                            ("updatedAt", .str "2024-01-01T00:00:00.002Z")])] ∧
    getAccountStatus false
        (updateAccountStatus plainHost sampleStatus (some ⟨[]⟩) "acc_1"
          (.obj [("name", .num "Infinity"), ("success", .bool true)])) =
      .obj [("acc_1", .obj [("name", .null), ("success", .bool true),
                            ("updatedAt", .str "2024-01-01T00:00:00.002Z")])] := by
  decide

end KoyebLive
